import Mathlib

/-!
Verification development for the poem-parser repository.

The repository stores poems in a hierarchy `user → author → title → poem`,
with two interchangeable backends:

* `src/utils/db_utils.py` — a JSON-file store (nested Python dicts), and
* `src/api/utils/db_utils.py` — a PostgreSQL store (users/authors/poems
  tables with `ON DELETE CASCADE` and a `UNIQUE (author_id, title_slug)`
  constraint),

together with a per-user capture-session manager in `src/main.py`
(`create_session`, `delete_user_session`, `handle_image`, `upload`).

Python dicts are embedded as association lists that preserve insertion
order (`AList` below): updating an existing key rewrites the value in
place, a new key is appended at the end, exactly as CPython dicts behave.
The external `slugify` library is embedded as an explicit function
parameter `slug : String → String`; `datetime.now()` as an explicit
`now : String` argument; the JSON file contents as the dictionary value
itself (the `json.dump`/`json.load` round trip is the identity).
-/

namespace PoemBot

/-! ## Association lists modelling Python dicts -/

namespace AList

variable {κ α : Type} [DecidableEq κ]

/-- Python `d.get(k)` / `d[k]`: value of the first (unique) binding. -/
def find (k : κ) : List (κ × α) → Option α
  | [] => none
  | p :: rest => if p.1 = k then some p.2 else find k rest

/-- Python `d[k] = v`: update in place if the key exists, else append. -/
def set (k : κ) (v : α) : List (κ × α) → List (κ × α)
  | [] => [(k, v)]
  | p :: rest => if p.1 = k then (k, v) :: rest else p :: set k v rest

/-- Python `d.pop(k, None)`: remove the binding of `k`.  Dict keys are
unique, so removing every binding agrees with removing the one binding. -/
def erase (k : κ) (l : List (κ × α)) : List (κ × α) :=
  l.filter (fun p => !(p.1 = k : Bool))

/-- Python `d.setdefault(k, v)`: insert `(k, v)` (at the end) only when the
key is absent. -/
def setdefault (k : κ) (v : α) (l : List (κ × α)) : List (κ × α) :=
  match find k l with
  | some _ => l
  | none => l ++ [(k, v)]

/-- Number of bindings of a key (1 for a well-formed dict key). -/
def countKey (k : κ) (l : List (κ × α)) : Nat :=
  l.countP (fun p => p.1 = k)

/-- Keys of the association list are pairwise distinct (true of any
dictionary state reachable in Python). -/
def WFKeys (l : List (κ × α)) : Prop :=
  (l.map Prod.fst).Nodup

instance (l : List (κ × α)) : Decidable (WFKeys l) := by
  unfold WFKeys; infer_instance

end AList

/-! ## Shared data model

`PoemInfo` and `AuthorEntry` mirror the nested dictionaries stored in
`poems.json` (and returned by the API's `get_poems_by_user`).  `PoemDict`
mirrors the `poem_dict` payload accepted by both `upload_to_db`
implementations; absent keys are `none`. -/

structure PoemInfo where
  title : String
  poem : String
  request_id : String
  upload_at : String
  poem_url : String
deriving DecidableEq, Repr

structure AuthorEntry where
  author : String
  poems : List (String × PoemInfo)
deriving DecidableEq, Repr

/-- One user's sub-dictionary: `author_slug → AuthorEntry`. -/
abbrev UserMap := List (String × AuthorEntry)

/-- The whole JSON database: `user_id → UserMap`. -/
abbrev DB := List (String × UserMap)

structure PoemDict where
  user_id : Option String
  author : Option String
  title : Option String
  text : Option String
  request_id : Option String
deriving DecidableEq, Repr

/-- Convenience constructor: a payload with every key present (as the bot
sends it). -/
def mkPoem (u a t x r : String) : PoemDict :=
  ⟨some u, some a, some t, some x, some r⟩

/-- Python `str(poem_dict.get("user_id"))`: an absent key yields `None`,
and `str(None)` is the (truthy!) string `"None"`.  Values sent by the bot
are already strings. -/
def pyStr : Option String → String
  | none => "None"
  | some s => s

/-- Leading-whitespace removal on a character list (structurally
recursive, so that concrete states evaluate inside the kernel). -/
def stripLeading : List Char → List Char
  | [] => []
  | c :: cs => if c.isWhitespace then stripLeading cs else c :: cs

/-- Python `str.strip()`: remove leading and trailing whitespace.  This is
the explicit embedding of the `.strip()` calls in both `upload_to_db`
implementations. -/
def pyStrip (s : String) : String :=
  ⟨stripLeading (stripLeading s.data.reverse).reverse⟩

namespace JsonDB

/-! ### `src/utils/db_utils.py` — the JSON-file backend

The file contents are modelled by the `DB` value itself: every operation
loads the dictionary, mutates it, and dumps it back, so the state
transition is a pure function on `DB`.  An operation that raises before
`upload_poems` leaves the file — hence the state — unchanged. -/

/-- Embeds `upload_to_db(poem_dict)` of `src/utils/db_utils.py`.  Returns the new
database and the poem URL, or the `ValueError` message. -/
def upload_to_db (slug : String → String) (db : DB) (p : PoemDict)
    (now : String) : Except String (DB × String) :=
  let user_id := pyStr p.user_id
  if user_id = "" then
    .error "Missing required field: user_id"
  else
    -- poems.setdefault(user_id, {})
    let db := AList.setdefault user_id [] db
    let author := pyStrip (p.author.getD "Unknown")
    let author_id := slug author
    -- poems[user_id].setdefault(author_id, {"author": author, "poems": {}})
    let userMap := (AList.find user_id db).getD []
    let userMap := AList.setdefault author_id ⟨author, []⟩ userMap
    let entry := (AList.find author_id userMap).getD ⟨author, []⟩
    -- if author != author_dict["author"]: author_dict["author"] = author
    let entry := if author ≠ entry.author then { entry with author := author } else entry
    let title := pyStrip (p.title.getD "Unknown")
    let title_id := slug title
    let poem_url := author_id ++ "/" ++ title_id
    let info : PoemInfo :=
      { title := title
        poem := pyStrip (p.text.getD "")
        request_id := pyStrip (p.request_id.getD "")
        upload_at := now
        poem_url := poem_url }
    -- author_dict["poems"][title_id] = poem_info, written back through the
    -- dict aliases poems[user_id][author_id]
    let entry := { entry with poems := AList.set title_id info entry.poems }
    let userMap := AList.set author_id entry userMap
    let db := AList.set user_id userMap db
    .ok (db, poem_url)

/-- Embeds `get_poems_by_user(user_id)`: `poems.get(user_id, {})`. -/
def get_poems_by_user (user_id : String) (db : DB) : UserMap :=
  (AList.find user_id db).getD []

/-- Embeds `delete_user_db(user_id)`: `poems.pop(user_id, None)` (the file is only
rewritten when something was removed, which leaves the state equal either
way). -/
def delete_user_db (user_id : String) (db : DB) : DB :=
  AList.erase user_id db

/-- Embeds `delete_author_db(user_id, author)`. -/
def delete_author_db (slug : String → String) (user_id author : String)
    (db : DB) : DB :=
  let author_id := slug author
  match AList.find user_id db with
  | none => db
  | some userMap =>
    match AList.find author_id userMap with
    | none => db
    | some _ => AList.set user_id (AList.erase author_id userMap) db

/-- Embeds `delete_poem_db(user_id, author, title)`: pops `title_id` from the
author's `poems` sub-dictionary and never touches the author entry
itself. -/
def delete_poem_db (slug : String → String) (user_id author title : String)
    (db : DB) : DB :=
  let author_id := slug author
  let title_id := slug title
  match AList.find user_id db with
  | none => db
  | some userMap =>
    match AList.find author_id userMap with
    | none => db
    | some entry =>
      let entry := { entry with poems := AList.erase title_id entry.poems }
      AList.set user_id (AList.set author_id entry userMap) db

/-- State of the backing `poems.json` file, as `load_poems` observes it:
absent, or present with some textual contents. -/
inductive FileState
  | missing
  | present (contents : String)
deriving DecidableEq, Repr

/-- Embeds `load_poems()` of `src/utils/db_utils.py`.  `parse` embeds
`json.load`; `parse s = none` is a `json.JSONDecodeError` on contents
`s`, which the function catches and turns into `{}`. -/
def load_poems (parse : String → Option DB) : FileState → DB
  | .missing => []
  | .present s =>
    match parse s with
    | some db => db
    | none => []

/-! ### Accessors used to state the claims -/

/-- The author entry stored for `(user_id, author_slug)`, if any. -/
def authorAt (db : DB) (user_id author_slug : String) : Option AuthorEntry :=
  (AList.find user_id db).bind (fun m => AList.find author_slug m)

/-- The poem stored under `(user_id, author_slug, title_slug)`, if any. -/
def poemAt (db : DB) (user_id author_slug title_slug : String) : Option PoemInfo :=
  (authorAt db user_id author_slug).bind (fun e => AList.find title_slug e.poems)

/-- The poems dictionary stored for `(user_id, author_slug)` (empty when
the author is absent). -/
def poemsAt (db : DB) (user_id author_slug : String) : List (String × PoemInfo) :=
  match authorAt db user_id author_slug with
  | none => []
  | some e => e.poems

/-- How many poem entries the author's dictionary holds under
`title_slug` (1 in any well-formed state with the poem present). -/
def poemCount (db : DB) (user_id author_slug title_slug : String) : Nat :=
  match authorAt db user_id author_slug with
  | none => 0
  | some e => AList.countKey title_slug e.poems

/-- How many author entries the user's dictionary holds under
`author_slug` (1 in any well-formed state with the author present). -/
def authorCount (db : DB) (user_id author_slug : String) : Nat :=
  match AList.find user_id db with
  | none => 0
  | some m => AList.countKey author_slug m

/-- Well-formed JSON database: dictionary keys are unique at every level
(true of every value `json.load` or the Python dict operations can
produce). -/
def WF (db : DB) : Prop :=
  AList.WFKeys db ∧
    ∀ m ∈ db, AList.WFKeys m.2 ∧ ∀ a ∈ m.2, AList.WFKeys a.2.poems

instance (db : DB) : Decidable (WF db) := by
  unfold WF; infer_instance

end JsonDB

namespace Pg

/-! ### `src/api/utils/db_utils.py` — the PostgreSQL backend

The three tables of `init_db` are embedded as lists of rows; `SERIAL`
primary keys as counters `nextUser`/`nextAuthor`/`nextPoem`.  A
`SELECT ... fetchone()` is `List.find?`; `INSERT` appends a row with the
next id; `UPDATE`/`DELETE ... WHERE` map/filter the rows.  Deleting a user
cascades to its authors and their poems exactly as the
`ON DELETE CASCADE` foreign keys of `init_db` prescribe. -/

structure UserRow where
  id : Nat
  user_id : String
deriving DecidableEq, Repr

structure AuthorRow where
  id : Nat
  user_id : Nat
  author : String
  author_slug : String
deriving DecidableEq, Repr

structure PoemRow where
  id : Nat
  author_id : Nat
  title : String
  title_slug : String
  poem : String
  poem_url : String
  request_id : String
  upload_at : String
deriving DecidableEq, Repr

structure PgDB where
  users : List UserRow
  authors : List AuthorRow
  poems : List PoemRow
  nextUser : Nat
  nextAuthor : Nat
  nextPoem : Nat
deriving DecidableEq, Repr

def emptyDB : PgDB := ⟨[], [], [], 1, 1, 1⟩

/-- Embeds `ensure_user(user_id)`: select by `user_id`, insert with a fresh
serial id when absent; returns the row id. -/
def ensure_user (db : PgDB) (user_id : String) : PgDB × Nat :=
  match db.users.find? (fun r => r.user_id == user_id) with
  | some r => (db, r.id)
  | none =>
    ({ db with
        users := db.users ++ [⟨db.nextUser, user_id⟩]
        nextUser := db.nextUser + 1 }, db.nextUser)

/-- Key predicate of the `UNIQUE (user_id, author_slug)` lookup in
`ensure_author`. -/
def authKey (uid : Nat) (s : String) (a : AuthorRow) : Bool :=
  a.user_id == uid && a.author_slug == s

/-- Embeds `ensure_author(user_db_id, author_name)`: select by
`(user_id, author_slug)`; when found, `UPDATE authors SET author = %s
WHERE id = %s` (the display name is rewritten even when unchanged); when
absent, insert with a fresh serial id.  Returns the row id. -/
def ensure_author (slug : String → String) (db : PgDB) (user_db_id : Nat)
    (author_name : String) : PgDB × Nat :=
  let author_slug := slug author_name
  match db.authors.find? (authKey user_db_id author_slug) with
  | some r =>
    ({ db with
        authors := db.authors.map (fun a =>
          if a.id = r.id then { a with author := author_name } else a) }, r.id)
  | none =>
    ({ db with
        authors := db.authors ++ [⟨db.nextAuthor, user_db_id, author_name, author_slug⟩]
        nextAuthor := db.nextAuthor + 1 }, db.nextAuthor)

/-- Key predicate of the `UNIQUE (author_id, title_slug)` constraint on
`poems`. -/
def poemKey (aid : Nat) (ts : String) (p : PoemRow) : Bool :=
  p.author_id == aid && p.title_slug == ts

/-- The `INSERT ... ON CONFLICT (author_id, title_slug) DO UPDATE SET ...`
statement of `upload_to_db`: overwrite the conflicting row's title, poem,
poem_url, request_id and upload_at, or insert a fresh row. -/
def upsert_poem (db : PgDB) (author_db_id : Nat)
    (title title_slug text poem_url rid now : String) : PgDB :=
  match db.poems.find? (poemKey author_db_id title_slug) with
  | some r =>
    { db with
        poems := db.poems.map (fun q =>
          if q.id = r.id then
            { q with
                title := title, poem := text, poem_url := poem_url,
                request_id := rid, upload_at := now }
          else q) }
  | none =>
    { db with
        poems := db.poems ++
          [⟨db.nextPoem, author_db_id, title, title_slug, text, poem_url, rid, now⟩]
        nextPoem := db.nextPoem + 1 }

/-- Embeds `upload_to_db(poem_dict)` of `src/api/utils/db_utils.py`.
`main_user` is the `MAIN_USER_ID` environment variable (empty when
unset, which raises `RuntimeError`). -/
def upload_to_db (slug : String → String) (main_user : String) (db : PgDB)
    (p : PoemDict) (now : String) : Except String (PgDB × String) :=
  if main_user = "" then
    .error "MAIN_USER_ID is not set in environment variables."
  else
    let user_id := pyStr p.user_id
    if user_id = "" then
      .error "Missing required field: user_id"
    else
      let author := pyStrip (p.author.getD "Unknown")
      let title := pyStrip (p.title.getD "Unknown")
      let text := pyStrip (p.text.getD "")
      let rid := pyStrip (p.request_id.getD "")
      let (db, user_db_id) := ensure_user db user_id
      let (db, author_db_id) := ensure_author slug db user_db_id author
      let title_slug := slug title
      let author_slug := slug author
      let poem_url :=
        if user_id = main_user then author_slug ++ "/" ++ title_slug
        else "id/" ++ user_id ++ "/" ++ author_slug ++ "/" ++ title_slug
      let db := upsert_poem db author_db_id title title_slug text poem_url rid now
      .ok (db, poem_url)

/-- Embeds `get_poems_by_user(user_id)`: join authors and poems of the user and
build the nested dictionary (`ORDER BY` only permutes the joined rows and
is not modelled; the dictionary built from them is stated up to that
order). -/
def get_poems_by_user (db : PgDB) (user_id : String) : UserMap :=
  match db.users.find? (fun r => r.user_id == user_id) with
  | none => []
  | some u =>
    let rows := (db.authors.filter (fun a => a.user_id == u.id)).flatMap
      (fun a => (db.poems.filter (fun p => p.author_id == a.id)).map (fun p => (a, p)))
    rows.foldl (fun acc row =>
      let a := row.1
      let p := row.2
      let acc := AList.setdefault a.author_slug ⟨a.author, []⟩ acc
      let entry := (AList.find a.author_slug acc).getD ⟨a.author, []⟩
      AList.set a.author_slug
        { entry with
            poems := AList.set p.title_slug
              ⟨p.title, p.poem, p.request_id, p.upload_at, p.poem_url⟩ entry.poems }
        acc) []

/-- Embeds `delete_user_db(user_id)`: `DELETE FROM users WHERE id = %s`; the
`ON DELETE CASCADE` constraints remove the user's authors and, in turn,
their poems. -/
def delete_user_db (db : PgDB) (user_id : String) : PgDB :=
  match db.users.find? (fun r => r.user_id == user_id) with
  | none => db
  | some u =>
    { db with
        users := db.users.filter (fun r => !(r.id == u.id))
        authors := db.authors.filter (fun a => !(a.user_id == u.id))
        poems := db.poems.filter (fun p =>
          !(db.authors.any (fun a => a.user_id == u.id && a.id == p.author_id))) }

/-- Embeds `delete_poem_db(user_id, author, title)`: looks up the user and the
author row, then `DELETE FROM poems WHERE author_id = %s AND
title_slug = %s`.  The users and authors tables are never written. -/
def delete_poem_db (slug : String → String) (db : PgDB)
    (user_id author title : String) : PgDB :=
  match db.users.find? (fun r => r.user_id == user_id) with
  | none => db
  | some u =>
    let author_slug := slug author
    let title_slug := slug title
    match db.authors.find? (authKey u.id author_slug) with
    | none => db
    | some a =>
      { db with poems := db.poems.filter (fun p => !(poemKey a.id title_slug p)) }

/-! ### Accessors used to state the claims -/

/-- Whether poem row `p` is the one `delete_poem_db slug db u a t` targets
(the row keyed by the looked-up author's id and `slug t`). -/
def isTargetPoem (slug : String → String) (db : PgDB)
    (user_id author title : String) (p : PoemRow) : Bool :=
  match db.users.find? (fun r => r.user_id == user_id) with
  | none => false
  | some u =>
    match db.authors.find? (authKey u.id (slug author)) with
    | none => false
    | some a => poemKey a.id (slug title) p

/-- Number of author rows stored for the user under author slug `s`. -/
def authorCountBySlug (db : PgDB) (user_id s : String) : Nat :=
  match db.users.find? (fun r => r.user_id == user_id) with
  | none => 0
  | some u => db.authors.countP (authKey u.id s)

/-- Display names of the author rows stored for the user under author
slug `s`. -/
def authorNamesBySlug (db : PgDB) (user_id s : String) : List String :=
  match db.users.find? (fun r => r.user_id == user_id) with
  | none => []
  | some u => (db.authors.filter (authKey u.id s)).map AuthorRow.author

/-- Number of poem rows stored for the user under `(author slug s, title
slug ts)`: rows whose `(author_id, title_slug)` key points at an author
row of the user carrying slug `s`. -/
def poemCountBySlug (db : PgDB) (user_id s ts : String) : Nat :=
  match db.users.find? (fun r => r.user_id == user_id) with
  | none => 0
  | some u =>
    db.poems.countP (fun p =>
      db.authors.any (fun a => authKey u.id s a && p.author_id == a.id) &&
        p.title_slug == ts)

/-- Body texts of the poem rows stored for the user under
`(author slug s, title slug ts)`. -/
def poemTextsBySlug (db : PgDB) (user_id s ts : String) : List String :=
  match db.users.find? (fun r => r.user_id == user_id) with
  | none => []
  | some u =>
    (db.poems.filter (fun p =>
      db.authors.any (fun a => authKey u.id s a && p.author_id == a.id) &&
        p.title_slug == ts)).map PoemRow.poem

/-- Well-formedness used by the claims: the uniqueness constraints of
`init_db` (`users.user_id UNIQUE`, `UNIQUE (author_id, title_slug)` on
poems, and the `(user_id, author_slug)` key `ensure_author` maintains)
hold of the row lists. -/
def WF (db : PgDB) : Prop :=
  (db.users.map UserRow.user_id).Nodup ∧
    (db.authors.map (fun a => (a.user_id, a.author_slug))).Nodup ∧
    (db.poems.map (fun p => (p.author_id, p.title_slug))).Nodup

instance (db : PgDB) : Decidable (WF db) := by
  unfold WF; infer_instance

end Pg

namespace Bot

/-! ### `src/main.py` — the capture-session manager

Per-user state lives in the module-level dictionaries
`user_sessions : user_id → request_id` and
`user_data : user_id → {author, title, text}`; each session additionally
owns the scratch directory `TEMP_DIR/<request_id>`, modelled by the list
of existing session directory names `dirs`.  `uuid.uuid4().hex[:16]` is an
external source of fresh identifiers, passed in as the `rid` argument. -/

structure Draft where
  author : Option String
  title : Option String
  text : Option String
deriving DecidableEq, Repr

structure BotState where
  user_sessions : List (Nat × String)
  user_data : List (Nat × Draft)
  dirs : List String
deriving DecidableEq, Repr

/-- Embeds `delete_user_session(user_id)`: pop both dictionary entries and
`shutil.rmtree` the session directory (best-effort, no error when
absent). -/
def delete_user_session (st : BotState) (u : Nat) : BotState :=
  let rid := AList.find u st.user_sessions
  { user_sessions := AList.erase u st.user_sessions
    user_data := AList.erase u st.user_data
    dirs :=
      match rid with
      | some r => st.dirs.filter (fun d => !(d == r))
      | none => st.dirs }

/-- The draft defaults installed by `create_session`:
`{"author": "Unknown", "title": None, "text": None}`. -/
def defaultDraft : Draft := ⟨some "Unknown", none, none⟩

/-- Embeds `create_session(user_id)`: generate a request id (`rid`, external
randomness), delete any existing session, `os.makedirs` the scratch
directory, and initialise both per-user dictionaries. -/
def create_session (st : BotState) (u : Nat) (rid : String) : String × BotState :=
  let st := delete_user_session st u
  let st := { st with
    dirs := if st.dirs.contains rid then st.dirs else st.dirs ++ [rid] }
  let st := { st with
    user_sessions := AList.set u rid st.user_sessions
    user_data := AList.set u defaultDraft st.user_data }
  (rid, st)

/-- Python truthiness of an optional draft field: `None` and `""` are
falsy. -/
def truthy (o : Option String) : Bool := !(o.getD "" == "")

inductive UploadResult
  | incompleteDraft
  | uploaded (payload : PoemDict)
  | uploadFailed
deriving DecidableEq, Repr

/-- Embeds `upload(update, context)` (the `/upload` handler): refuse when the
draft or session is missing or any of author/title/text is falsy;
otherwise POST the payload to the API (`apiOk` is the collaborator's
verdict) and tear the session down on success. -/
def upload (st : BotState) (u : Nat) (apiOk : Bool) : UploadResult × BotState :=
  match AList.find u st.user_data, AList.find u st.user_sessions with
  | some d, some rid =>
    if truthy d.author && truthy d.title && truthy d.text then
      let payload : PoemDict :=
        { user_id := some (toString u)
          author := d.author
          title := d.title
          text := d.text
          request_id := some rid }
      if apiOk then (.uploaded payload, delete_user_session st u)
      else (.uploadFailed, st)
    else (.incompleteDraft, st)
  | _, _ => (.incompleteDraft, st)

/-- Well-formed bot state: at most one binding per user in either
dictionary, and no duplicate scratch directories. -/
def WF (st : BotState) : Prop :=
  AList.WFKeys st.user_sessions ∧ AList.WFKeys st.user_data ∧ st.dirs.Nodup

instance (st : BotState) : Decidable (WF st) := by
  unfold WF; infer_instance

/-! ### `handle_image` — image collection

The scratch directory only ever holds files the handler itself wrote:
`"{index:03d}.tmp"` during download and `"{index:03d}.jpg" / ".png"` after
the content sniff, so a directory entry is embedded as a stem plus an
extension (always lowercase by construction, making the lowercased
`endswith((".jpg", ".jpeg", ".png"))` test an extension comparison).
`imghdr.what` is the `detected` argument (`none`: unrecognised). -/

structure ImgFile where
  stem : String
  ext : String
deriving DecidableEq, Repr

/-- The filter `f.lower().endswith((".jpg", ".jpeg", ".png"))` over the
directory listing. -/
def isImageFile (f : ImgFile) : Bool :=
  f.ext == "jpg" || f.ext == "jpeg" || f.ext == "png"

/-- Python `f"{n:03d}"`: decimal digits, left-padded with zeros to width
at least 3. -/
def pad3 (n : Nat) : String :=
  let s := toString n
  String.mk (List.replicate (3 - s.length) '0') ++ s

inductive ImgResult
  | capacityExceeded
  | unsupported
  | acceptedMax
  | accepted
deriving DecidableEq, Repr

/-- Embeds `handle_image` (the photo handler) for an existing session: count the
image files already present; refuse beyond `MAX_IMAGES`; download to
`"{index:03d}.tmp"`, sniff the content type, delete the temp file for
types other than jpeg/png, else rename it to the final ordinal name
(the transient `.tmp` entry is not an image file and is gone again by the
end of the call, so the net directory change is appending the final
name). -/
def handle_image (maxImages : Nat) (files : List ImgFile)
    (detected : Option String) : ImgResult × List ImgFile :=
  let image_paths := files.filter isImageFile
  if image_paths.length ≥ maxImages then
    (.capacityExceeded, files)
  else
    let image_index := image_paths.length + 1
    if detected = some "jpeg" ∨ detected = some "png" then
      let extension := if detected = some "jpeg" then "jpg" else "png"
      let final := ImgFile.mk (pad3 image_index) extension
      let files := files ++ [final]
      if image_index = maxImages then (.acceptedMax, files)
      else (.accepted, files)
    else
      (.unsupported, files)

/-- Feeding a sequence of images (their sniffed types) through
`handle_image`. -/
def runImages (maxImages : Nat) (files : List ImgFile) :
    List (Option String) → List ImgFile
  | [] => files
  | d :: ds => runImages maxImages (handle_image maxImages files d).2 ds

/-- The extension `handle_image` gives an accepted image of sniffed type
`d`. -/
def extOf (d : Option String) : String := if d = some "jpeg" then "jpg" else "png"

/-- The files an accepted sequence of images produces, numbered from
`start`. -/
def expectedFiles (start : Nat) : List (Option String) → List ImgFile
  | [] => []
  | d :: ds => ImgFile.mk (pad3 start) (extOf d) :: expectedFiles (start + 1) ds

end Bot

/-! ## Generic list lemmas used by the proofs -/

section ListAux

variable {α β κ : Type}

theorem countP_map_eq (f : α → α) (p : α → Bool)
    (hf : ∀ a, p (f a) = p a) (l : List α) : (l.map f).countP p = l.countP p := by
  induction l with
  | nil => rfl
  | cons a l ih => rw [List.map_cons, List.countP_cons, List.countP_cons, hf, ih]

theorem countP_le_one_of_nodup_map (keyOf : α → κ) (p : α → Bool)
    (hp : ∀ a, p a = true → ∀ b, p b = true → keyOf a = keyOf b)
    {l : List α} (h : (l.map keyOf).Nodup) : l.countP p ≤ 1 := by
  induction l with
  | nil => simp
  | cons a l ih =>
    rw [List.map_cons, List.nodup_cons] at h
    by_cases hpa : p a
    · have hz : l.countP p = 0 := by
        rw [List.countP_eq_zero]
        intro b hb hpb
        exact h.1 (by
          rw [hp a hpa b hpb]
          exact List.mem_map_of_mem keyOf hb)
      rw [List.countP_cons, hz]
      simp [hpa]
    · rw [List.countP_cons]
      have := ih h.2
      simp [hpa]
      omega

theorem unique_of_countP_eq_one {p : α → Bool} {l : List α} (h : l.countP p = 1)
    {a b : α} (ha : a ∈ l) (hpa : p a) (hb : b ∈ l) (hpb : p b) : a = b := by
  rw [List.countP_eq_length_filter, List.length_eq_one] at h
  rcases h with ⟨c, hc⟩
  have ha' : a ∈ l.filter p := List.mem_filter.mpr ⟨ha, hpa⟩
  have hb' : b ∈ l.filter p := List.mem_filter.mpr ⟨hb, hpb⟩
  rw [hc, List.mem_singleton] at ha' hb'
  rw [ha', hb']

theorem filter_map_eq_single {p : α → Bool} {l : List α} (f : α → β) {v : β}
    (h1 : l.countP p = 1) (h2 : ∀ a ∈ l, p a = true → f a = v) :
    (l.filter p).map f = [v] := by
  rw [List.countP_eq_length_filter, List.length_eq_one] at h1
  rcases h1 with ⟨c, hc⟩
  have hcmem : c ∈ l.filter p := by
    rw [hc]
    exact List.mem_singleton.mpr rfl
  rcases List.mem_filter.mp hcmem with ⟨hcl, hpc⟩
  rw [hc, List.map_cons, List.map_nil, h2 c hcl hpc]

theorem countP_eq_one_of_le_of_mem {p : α → Bool} {l : List α}
    (hle : l.countP p ≤ 1) {a : α} (ha : a ∈ l) (hpa : p a) : l.countP p = 1 := by
  have : 0 < l.countP p := List.countP_pos_iff.mpr ⟨a, ha, hpa⟩
  omega

theorem nodup_map_inj {f : α → κ} {l : List α} (h : (l.map f).Nodup)
    {a b : α} (ha : a ∈ l) (hb : b ∈ l) (hf : f a = f b) : a = b := by
  induction l with
  | nil => cases ha
  | cons c l ih =>
    rw [List.map_cons, List.nodup_cons] at h
    rcases List.mem_cons.mp ha with ha' | ha' <;>
      rcases List.mem_cons.mp hb with hb' | hb'
    · rw [ha', hb']
    · exact absurd (by rw [← ha', hf]; exact List.mem_map_of_mem f hb') h.1
    · exact absurd (by rw [← hb', ← hf]; exact List.mem_map_of_mem f ha') h.1
    · exact ih h.2 ha' hb'

end ListAux

/-! ## Concrete instantiations used by witnesses and counterexamples

`slug` is everywhere an abstract parameter standing for the external
`slugify` library.  Witnesses instantiate it with a function that agrees
with `slugify` on the plain ASCII inputs they use. -/

def slugPlain : String → String := pyStrip

/-- Database component of a successful upload result. -/
def okState {σ : Type} : Except String (σ × String) → Option σ
  | .ok (d, _) => some d
  | .error _ => none

/-- URL component of a successful upload result. -/
def okUrl {σ : Type} : Except String (σ × String) → Option String
  | .ok (_, url) => some url
  | .error _ => none

/-- Database component of an upload result, with a default for the error
case (used to chain concrete uploads in witnesses). -/
def okStateD {σ : Type} (dflt : σ) : Except String (σ × String) → σ
  | .ok (d, _) => d
  | .error _ => dflt

/-! ## Properties of the dict embedding -/

namespace AList

variable {κ α : Type} [DecidableEq κ]

theorem erase_cons (k : κ) (p : κ × α) (rest : List (κ × α)) :
    erase k (p :: rest) = if p.1 = k then erase k rest else p :: erase k rest := by
  by_cases hp : p.1 = k <;> simp [erase, List.filter_cons, hp]

theorem find_set_self (k : κ) (v : α) (l : List (κ × α)) :
    find k (set k v l) = some v := by
  induction l with
  | nil => simp [set, find]
  | cons p rest ih =>
    by_cases h : p.1 = k
    · simp [set, h, find]
    · simp [set, h, find, ih]

theorem find_set_ne {k k' : κ} (h : k' ≠ k) (v : α) (l : List (κ × α)) :
    find k' (set k v l) = find k' l := by
  have h1 : ¬ (k = k') := fun hc => h hc.symm
  induction l with
  | nil => simp [set, find, h1]
  | cons p rest ih =>
    by_cases hp : p.1 = k
    · have h2 : ¬ (p.1 = k') := fun hc => h1 (by rw [← hp, hc])
      simp [set, hp, find, h1, h2]
    · by_cases hp' : p.1 = k'
      · simp [set, hp, find, hp', h, h1]
      · simp [set, hp, find, hp', ih]

theorem find_erase_self (k : κ) (l : List (κ × α)) :
    find k (erase k l) = none := by
  induction l with
  | nil => simp [erase, find]
  | cons p rest ih =>
    rw [erase_cons]
    by_cases hp : p.1 = k
    · simpa [hp] using ih
    · simpa [hp, find] using ih

theorem find_erase_ne {k k' : κ} (h : k' ≠ k) (l : List (κ × α)) :
    find k' (erase k l) = find k' l := by
  have h1 : ¬ (k = k') := fun hc => h hc.symm
  induction l with
  | nil => simp [erase, find]
  | cons p rest ih =>
    rw [erase_cons]
    by_cases hp : p.1 = k
    · have h2 : ¬ (p.1 = k') := fun hc => h (by rw [← hc, hp])
      simpa [hp, find, h2, h1] using ih
    · by_cases hp' : p.1 = k'
      · simp [hp, find, hp', h, h1]
      · simpa [hp, find, hp'] using ih

theorem find_append_right {k : κ} {l : List (κ × α)} (h : find k l = none)
    (l2 : List (κ × α)) : find k (l ++ l2) = find k l2 := by
  induction l with
  | nil => simp
  | cons p rest ih =>
    by_cases hp : p.1 = k
    · rw [find, if_pos hp] at h
      cases h
    · rw [find, if_neg hp] at h
      simpa [find, hp] using ih h

theorem set_of_find_none {k : κ} {l : List (κ × α)} (h : find k l = none) (v : α) :
    set k v l = l ++ [(k, v)] := by
  induction l with
  | nil => simp [set]
  | cons p rest ih =>
    by_cases hp : p.1 = k
    · rw [find, if_pos hp] at h
      cases h
    · rw [find, if_neg hp] at h
      simp [set, hp, ih h]

theorem countKey_erase_self (k : κ) (l : List (κ × α)) :
    countKey k (erase k l) = 0 := by
  rw [countKey, List.countP_eq_zero]
  intro p hp
  have := List.of_mem_filter hp
  simpa using this

theorem countKey_set_self {k : κ} {l : List (κ × α)} (h : WFKeys l) (v : α) :
    countKey k (set k v l) = 1 := by
  induction l with
  | nil => simp [set, countKey, List.countP_cons]
  | cons p rest ih =>
    rw [WFKeys, List.map_cons, List.nodup_cons] at h
    by_cases hp : p.1 = k
    · have hz : countKey k rest = 0 := by
        rw [countKey, List.countP_eq_zero]
        intro q hq hq'
        have hqk : q.1 = k := by simpa using hq'
        exact h.1 (by
          rw [hp, ← hqk]
          exact List.mem_map_of_mem Prod.fst hq)
      rw [set, if_pos hp, countKey, List.countP_cons]
      rw [countKey] at hz
      simp [hz]
    · have := ih h.2
      rw [set, if_neg hp, countKey, List.countP_cons]
      rw [countKey] at this
      simp [hp, this]

theorem mem_set_cases {k : κ} {v : α} {q : κ × α} {l : List (κ × α)}
    (hq : q ∈ set k v l) : q ∈ l ∨ q = (k, v) := by
  induction l with
  | nil =>
    simp [set] at hq
    right; exact hq
  | cons p rest ih =>
    by_cases hp : p.1 = k
    · rw [set, if_pos hp] at hq
      rcases List.mem_cons.mp hq with h1 | h1
      · right; exact h1
      · left; exact List.mem_cons_of_mem _ h1
    · rw [set, if_neg hp] at hq
      rcases List.mem_cons.mp hq with h1 | h1
      · left; rw [h1]; exact List.mem_cons_self _ _
      · rcases ih h1 with h2 | h2
        · left; exact List.mem_cons_of_mem _ h2
        · right; exact h2

theorem keys_set_nodup {k : κ} {l : List (κ × α)} (h : WFKeys l) (v : α) :
    WFKeys (set k v l) := by
  induction l with
  | nil => simp [set, WFKeys]
  | cons p rest ih =>
    rw [WFKeys, List.map_cons, List.nodup_cons] at h
    by_cases hp : p.1 = k
    · subst hp
      rw [WFKeys, set, if_pos rfl, List.map_cons, List.nodup_cons]
      exact h
    · have hr := ih h.2
      rw [WFKeys, set, if_neg hp, List.map_cons, List.nodup_cons]
      refine ⟨fun hc => ?_, hr⟩
      rcases List.mem_map.mp hc with ⟨q, hq, hqe⟩
      rcases mem_set_cases hq with hql | hqk
      · exact h.1 (List.mem_map.mpr ⟨q, hql, hqe⟩)
      · exact hp (by rw [hqk] at hqe; rw [← hqe])

theorem keys_erase_nodup {l : List (κ × α)} (h : WFKeys l) (k : κ) :
    WFKeys (erase k l) := by
  have hsub : (erase k l).Sublist l := List.filter_sublist l
  exact (hsub.map Prod.fst).nodup h

theorem find_setdefault_self (k : κ) (v : α) (l : List (κ × α)) :
    find k (setdefault k v l) = some ((find k l).getD v) := by
  unfold setdefault
  cases h : find k l with
  | some w => simp [h]
  | none => simp [find_append_right h, find]

theorem setdefault_of_find_some {k : κ} {l : List (κ × α)} {w : α}
    (h : find k l = some w) (v : α) : setdefault k v l = l := by
  unfold setdefault
  rw [h]


end AList

/-! ## Step lemmas for the PostgreSQL upsert -/

theorem Pg.ensure_user_tables (db : Pg.PgDB) (u : String) :
    (Pg.ensure_user db u).1.authors = db.authors ∧
      (Pg.ensure_user db u).1.poems = db.poems := by
  unfold Pg.ensure_user
  cases h : db.users.find? (fun r => r.user_id == u) with
  | some r => exact ⟨rfl, rfl⟩
  | none => exact ⟨rfl, rfl⟩

theorem Pg.ensure_user_find (db : Pg.PgDB) (u : String) :
    (Pg.ensure_user db u).1.users.find? (fun r => r.user_id == u)
      = some ⟨(Pg.ensure_user db u).2, u⟩ := by
  unfold Pg.ensure_user
  cases h : db.users.find? (fun r => r.user_id == u) with
  | some r =>
    obtain ⟨ri, rs⟩ := r
    have hrs : rs = u := by simpa using List.find?_some h
    simp only
    rw [h, hrs]
  | none =>
    simp only
    rw [List.find?_append, h]
    simp [List.find?]

theorem Pg.ensure_user_of_found (db : Pg.PgDB) (u : String) {r : Pg.UserRow}
    (h : db.users.find? (fun x => x.user_id == u) = some r) :
    Pg.ensure_user db u = (db, r.id) := by
  unfold Pg.ensure_user
  rw [h]

theorem Pg.ensure_author_tables (slug : String → String) (db : Pg.PgDB)
    (uid : Nat) (name : String) :
    (Pg.ensure_author slug db uid name).1.users = db.users ∧
      (Pg.ensure_author slug db uid name).1.poems = db.poems := by
  cases h : db.authors.find? (Pg.authKey uid (slug name)) with
  | some r => refine ⟨?_, ?_⟩ <;> simp only [Pg.ensure_author, h]
  | none => refine ⟨?_, ?_⟩ <;> simp only [Pg.ensure_author, h]

theorem Pg.ensure_author_id_of_found (slug : String → String) (db : Pg.PgDB)
    (uid : Nat) (name : String) {r : Pg.AuthorRow}
    (h : db.authors.find? (Pg.authKey uid (slug name)) = some r) :
    (Pg.ensure_author slug db uid name).2 = r.id := by
  simp only [Pg.ensure_author, h]

theorem Pg.ensure_author_spec (slug : String → String) (db : Pg.PgDB)
    (uid : Nat) (name : String)
    (hle : db.authors.countP (Pg.authKey uid (slug name)) ≤ 1) :
    (Pg.ensure_author slug db uid name).1.authors.countP (Pg.authKey uid (slug name)) = 1 ∧
    ∀ a ∈ (Pg.ensure_author slug db uid name).1.authors,
      Pg.authKey uid (slug name) a = true →
        a.author = name ∧ a.id = (Pg.ensure_author slug db uid name).2 := by
  cases h : db.authors.find? (Pg.authKey uid (slug name)) with
  | some r =>
    have hrk := List.find?_some h
    have hrmem := List.mem_of_find?_eq_some h
    have hcount1 : db.authors.countP (Pg.authKey uid (slug name)) = 1 :=
      countP_eq_one_of_le_of_mem hle hrmem hrk
    have hf : ∀ a : Pg.AuthorRow,
        Pg.authKey uid (slug name) (if a.id = r.id then { a with author := name } else a)
          = Pg.authKey uid (slug name) a := by
      intro a
      by_cases ha : a.id = r.id
      · rw [if_pos ha]
        rfl
      · rw [if_neg ha]
    constructor
    · simp only [Pg.ensure_author, h]
      rw [countP_map_eq _ _ hf]
      exact hcount1
    · simp only [Pg.ensure_author, h]
      intro a' ha' hk'
      rcases List.mem_map.mp ha' with ⟨a, ha, rfl⟩
      have hka : Pg.authKey uid (slug name) a = true := by
        rw [← hf a]
        exact hk'
      have haeq : a = r := unique_of_countP_eq_one hcount1 ha hka hrmem hrk
      subst haeq
      rw [if_pos rfl]
      exact ⟨rfl, rfl⟩
  | none =>
    have hznone := List.find?_eq_none.mp h
    have hz : db.authors.countP (Pg.authKey uid (slug name)) = 0 :=
      List.countP_eq_zero.mpr hznone
    constructor
    · simp only [Pg.ensure_author, h]
      rw [List.countP_append, hz]
      simp [Pg.authKey]
    · simp only [Pg.ensure_author, h]
      intro a' ha' hk'
      rcases List.mem_append.mp ha' with h1 | h1
      · exact absurd hk' (hznone a' h1)
      · rw [List.mem_singleton.mp h1]
        exact ⟨rfl, rfl⟩

theorem Pg.upsert_poem_spec (db : Pg.PgDB) (aid : Nat)
    (title ts text url rid now : String)
    (hle : db.poems.countP (Pg.poemKey aid ts) ≤ 1) :
    (Pg.upsert_poem db aid title ts text url rid now).poems.countP (Pg.poemKey aid ts) = 1 ∧
    (∀ p ∈ (Pg.upsert_poem db aid title ts text url rid now).poems,
      Pg.poemKey aid ts p = true → p.poem = text) ∧
    (Pg.upsert_poem db aid title ts text url rid now).users = db.users ∧
    (Pg.upsert_poem db aid title ts text url rid now).authors = db.authors := by
  unfold Pg.upsert_poem
  cases h : db.poems.find? (Pg.poemKey aid ts) with
  | some r =>
    have hrk := List.find?_some h
    have hrmem := List.mem_of_find?_eq_some h
    have hcount1 : db.poems.countP (Pg.poemKey aid ts) = 1 :=
      countP_eq_one_of_le_of_mem hle hrmem hrk
    have hf : ∀ q : Pg.PoemRow,
        Pg.poemKey aid ts
          (if q.id = r.id then
            { q with
                title := title, poem := text, poem_url := url,
                request_id := rid, upload_at := now }
          else q)
          = Pg.poemKey aid ts q := by
      intro q
      by_cases hq : q.id = r.id
      · rw [if_pos hq]
        rfl
      · rw [if_neg hq]
    refine ⟨?_, ?_, rfl, rfl⟩
    · simp only
      rw [countP_map_eq _ _ hf]
      exact hcount1
    · simp only
      intro p' hp' hk'
      rcases List.mem_map.mp hp' with ⟨q, hq, rfl⟩
      have hkq : Pg.poemKey aid ts q = true := by
        rw [← hf q]
        exact hk'
      have hqeq : q = r := unique_of_countP_eq_one hcount1 hq hkq hrmem hrk
      subst hqeq
      rw [if_pos rfl]
  | none =>
    have hznone := List.find?_eq_none.mp h
    have hz : db.poems.countP (Pg.poemKey aid ts) = 0 :=
      List.countP_eq_zero.mpr hznone
    refine ⟨?_, ?_, rfl, rfl⟩
    · simp only
      rw [List.countP_append, hz]
      simp [Pg.poemKey]
    · simp only
      intro p' hp' hk'
      rcases List.mem_append.mp hp' with h1 | h1
      · exact absurd hk' (hznone p' h1)
      · rw [List.mem_singleton.mp h1]

theorem Pg.upsert_poem_tables (db : Pg.PgDB) (aid : Nat)
    (title ts text url rid now : String) :
    (Pg.upsert_poem db aid title ts text url rid now).users = db.users ∧
      (Pg.upsert_poem db aid title ts text url rid now).authors = db.authors := by
  cases h : db.poems.find? (Pg.poemKey aid ts) with
  | some r => refine ⟨?_, ?_⟩ <;> simp only [Pg.upsert_poem, h]
  | none => refine ⟨?_, ?_⟩ <;> simp only [Pg.upsert_poem, h]

theorem Pg.countP_authKey_le_one {l : List Pg.AuthorRow}
    (h : (l.map (fun a => (a.user_id, a.author_slug))).Nodup) (uid : Nat) (s : String) :
    l.countP (Pg.authKey uid s) ≤ 1 := by
  refine countP_le_one_of_nodup_map (fun a => (a.user_id, a.author_slug)) _ ?_ h
  intro a hpa b hpb
  have ha : a.user_id = uid ∧ a.author_slug = s := by simpa [Pg.authKey] using hpa
  have hb : b.user_id = uid ∧ b.author_slug = s := by simpa [Pg.authKey] using hpb
  show (a.user_id, a.author_slug) = (b.user_id, b.author_slug)
  rw [ha.1, ha.2, hb.1, hb.2]

theorem Pg.countP_poemKey_le_one {l : List Pg.PoemRow}
    (h : (l.map (fun p => (p.author_id, p.title_slug))).Nodup) (aid : Nat) (ts : String) :
    l.countP (Pg.poemKey aid ts) ≤ 1 := by
  refine countP_le_one_of_nodup_map (fun p => (p.author_id, p.title_slug)) _ ?_ h
  intro a hpa b hpb
  have ha : a.author_id = aid ∧ a.title_slug = ts := by simpa [Pg.poemKey] using hpa
  have hb : b.author_id = aid ∧ b.title_slug = ts := by simpa [Pg.poemKey] using hpb
  show (a.author_id, a.title_slug) = (b.author_id, b.title_slug)
  rw [ha.1, ha.2, hb.1, hb.2]

/-- Rewrites `upload_to_db` of the API backend as the composition of its
three phases (for `MAIN_USER_ID` set and a non-empty `user_id`). -/
theorem Pg.upload_to_db_eq (slug : String → String) (mu : String) (db : Pg.PgDB)
    (p : PoemDict) (now : String) (hmu : mu ≠ "") (hu : pyStr p.user_id ≠ "") :
    Pg.upload_to_db slug mu db p now
      = .ok
          (Pg.upsert_poem
            (Pg.ensure_author slug (Pg.ensure_user db (pyStr p.user_id)).1
              (Pg.ensure_user db (pyStr p.user_id)).2 (pyStrip (p.author.getD "Unknown"))).1
            (Pg.ensure_author slug (Pg.ensure_user db (pyStr p.user_id)).1
              (Pg.ensure_user db (pyStr p.user_id)).2 (pyStrip (p.author.getD "Unknown"))).2
            (pyStrip (p.title.getD "Unknown"))
            (slug (pyStrip (p.title.getD "Unknown")))
            (pyStrip (p.text.getD ""))
            (if pyStr p.user_id = mu then
              slug (pyStrip (p.author.getD "Unknown")) ++ "/"
                ++ slug (pyStrip (p.title.getD "Unknown"))
            else
              "id/" ++ pyStr p.user_id ++ "/" ++ slug (pyStrip (p.author.getD "Unknown"))
                ++ "/" ++ slug (pyStrip (p.title.getD "Unknown")))
            (pyStrip (p.request_id.getD ""))
            now,
          if pyStr p.user_id = mu then
            slug (pyStrip (p.author.getD "Unknown")) ++ "/"
              ++ slug (pyStrip (p.title.getD "Unknown"))
          else
            "id/" ++ pyStr p.user_id ++ "/" ++ slug (pyStrip (p.author.getD "Unknown"))
              ++ "/" ++ slug (pyStrip (p.title.getD "Unknown"))) := by
  rw [Pg.upload_to_db, if_neg hmu, if_neg hu]

/-- One JSON-backend upload stores, under the user and author-slug keys,
an author entry whose poems dictionary is the previous one updated at the
title slug with the freshly built poem record. -/
theorem JsonDB.upload_entry (slug : String → String) (db : DB) (p : PoemDict)
    (now : String) {db1 : DB} {url : String}
    (h : JsonDB.upload_to_db slug db p now = .ok (db1, url)) :
    ∃ e : AuthorEntry,
      JsonDB.authorAt db1 (pyStr p.user_id) (slug (pyStrip (p.author.getD "Unknown")))
        = some e ∧
      e.poems = AList.set (slug (pyStrip (p.title.getD "Unknown")))
        ⟨pyStrip (p.title.getD "Unknown"), pyStrip (p.text.getD ""),
          pyStrip (p.request_id.getD ""), now,
          slug (pyStrip (p.author.getD "Unknown")) ++ "/"
            ++ slug (pyStrip (p.title.getD "Unknown"))⟩
        (JsonDB.poemsAt db (pyStr p.user_id)
          (slug (pyStrip (p.author.getD "Unknown")))) := by
  have hbase : ∀ (u2 aid2 : String) (d2 : AuthorEntry),
      ((AList.find aid2 ((AList.find u2 db).getD [])).getD d2).poems
        = (AList.find aid2 ((AList.find u2 db).getD [])).elim d2.poems AuthorEntry.poems := by
    intro u2 aid2 d2
    cases AList.find aid2 ((AList.find u2 db).getD []) with
    | none => rfl
    | some e2 => rfl
  have hpoemsAt : ∀ (u2 aid2 : String),
      (AList.find aid2 ((AList.find u2 db).getD [])).elim [] AuthorEntry.poems
        = JsonDB.poemsAt db u2 aid2 := by
    intro u2 aid2
    unfold JsonDB.poemsAt JsonDB.authorAt
    cases hfu : AList.find u2 db with
    | none => rfl
    | some m =>
      simp only [Option.getD_some, Option.some_bind]
      cases hfa : AList.find aid2 m with
      | none => rfl
      | some e2 => rfl
  have hAset : ∀ (u2 aid2 : String) (e : AuthorEntry) (m : UserMap) (db0 : DB),
      JsonDB.authorAt (AList.set u2 (AList.set aid2 e m) db0) u2 aid2 = some e := by
    intro u2 aid2 e m db0
    unfold JsonDB.authorAt
    rw [AList.find_set_self]
    simp only [Option.some_bind]
    rw [AList.find_set_self]
  by_cases hu : pyStr p.user_id = ""
  · rw [JsonDB.upload_to_db] at h
    simp only [if_pos hu] at h
    exact Except.noConfusion h
  · rw [JsonDB.upload_to_db] at h
    simp only [if_neg hu] at h
    injection h with h'
    injection h' with hdb hurl
    subst hdb
    refine ⟨_, hAset _ _ _ _ _, ?_⟩
    change AList.set _ _ _ = _
    congr 1
    simp only [apply_ite AuthorEntry.poems, ite_self]
    simp only [AList.find_setdefault_self, Option.getD_some]
    rw [hbase]
    exact hpoemsAt _ _

theorem AList.not_mem_keys_of_find_none {κ α : Type} [DecidableEq κ] {k : κ} :
    ∀ {l : List (κ × α)}, AList.find k l = none → k ∉ l.map Prod.fst := by
  intro l
  induction l with
  | nil =>
    intro _ hmem
    cases hmem
  | cons p rest ih =>
    intro h hmem
    simp only [AList.find] at h
    by_cases hp : p.1 = k
    · rw [if_pos hp] at h
      cases h
    · rw [if_neg hp] at h
      rw [List.map_cons] at hmem
      rcases List.mem_cons.mp hmem with h1 | h1
      · exact hp h1.symm
      · exact ih h h1

theorem AList.keys_setdefault_nodup {κ α : Type} [DecidableEq κ]
    {l : List (κ × α)} (h : AList.WFKeys l) (k : κ) (v : α) :
    AList.WFKeys (AList.setdefault k v l) := by
  unfold AList.setdefault
  cases hf : AList.find k l with
  | some w => exact h
  | none =>
    rw [AList.WFKeys, List.map_append, List.nodup_append]
    refine ⟨h, by simp, ?_⟩
    intro a ha hb
    have hak : a = k := by simpa using hb
    exact AList.not_mem_keys_of_find_none hf (hak ▸ ha)

theorem JsonDB.authorAt_set_set (u aid : String) (e : AuthorEntry)
    (m : UserMap) (db0 : DB) :
    JsonDB.authorAt (AList.set u (AList.set aid e m) db0) u aid = some e := by
  unfold JsonDB.authorAt
  rw [AList.find_set_self]
  simp only [Option.some_bind]
  rw [AList.find_set_self]

/-- One JSON-backend upload stores, under the user and author-slug keys,
exactly one author entry, whose display name is the stripped author
field; the user's dictionary keeps unique keys. -/
theorem JsonDB.upload_author_entry (slug : String → String) (db : DB)
    (p : PoemDict) (now : String) {db1 : DB} {url : String}
    (h : JsonDB.upload_to_db slug db p now = .ok (db1, url))
    (hWFm : AList.WFKeys ((AList.find (pyStr p.user_id) db).getD [])) :
    (∃ e : AuthorEntry,
      JsonDB.authorAt db1 (pyStr p.user_id) (slug (pyStrip (p.author.getD "Unknown")))
        = some e ∧
      e.author = pyStrip (p.author.getD "Unknown")) ∧
    JsonDB.authorCount db1 (pyStr p.user_id)
      (slug (pyStrip (p.author.getD "Unknown"))) = 1 ∧
    AList.WFKeys ((AList.find (pyStr p.user_id) db1).getD []) := by
  have hgen : ∀ (s : String) (e : AuthorEntry),
      ((if s ≠ e.author then ({ author := s, poems := e.poems } : AuthorEntry)
        else e)).author = s := by
    intro s e
    by_cases hc : s ≠ e.author
    · rw [if_pos hc]
    · rw [if_neg hc]
      exact (not_ne_iff.mp hc).symm
  have hum0 : ((AList.find (pyStr p.user_id)
        (AList.setdefault (pyStr p.user_id) [] db)).getD [])
      = ((AList.find (pyStr p.user_id) db).getD []) := by
    rw [AList.find_setdefault_self, Option.getD_some]
  have hWFum0 : AList.WFKeys ((AList.find (pyStr p.user_id)
      (AList.setdefault (pyStr p.user_id) [] db)).getD []) := by
    rw [hum0]
    exact hWFm
  have hWFum1 : AList.WFKeys
      (AList.setdefault (slug (pyStrip (p.author.getD "Unknown")))
        ⟨pyStrip (p.author.getD "Unknown"), []⟩
        ((AList.find (pyStr p.user_id)
          (AList.setdefault (pyStr p.user_id) [] db)).getD [])) :=
    AList.keys_setdefault_nodup hWFum0 _ _
  by_cases hu : pyStr p.user_id = ""
  · rw [JsonDB.upload_to_db] at h
    simp only [if_pos hu] at h
    exact Except.noConfusion h
  · rw [JsonDB.upload_to_db] at h
    simp only [if_neg hu] at h
    injection h with h'
    injection h' with hdb hurl
    subst hdb
    refine ⟨⟨_, JsonDB.authorAt_set_set _ _ _ _ _, hgen _ _⟩, ?_, ?_⟩
    · unfold JsonDB.authorCount
      rw [AList.find_set_self]
      exact AList.countKey_set_self hWFum1 _
    · rw [AList.find_set_self, Option.getD_some]
      exact AList.keys_set_nodup hWFum1 _

/-! ## Claims -/

/-- C10: `load_poems` never raises: it returns the parsed database when
the file exists and holds valid JSON, and the empty dictionary both when
the file is missing and when its contents fail to parse
(`json.JSONDecodeError` is caught). -/
theorem load_poems_total (parse : String → Option DB) :
    JsonDB.load_poems parse .missing = [] ∧
    (∀ s, parse s = none → JsonDB.load_poems parse (.present s) = []) ∧
    (∀ s db, parse s = some db → JsonDB.load_poems parse (.present s) = db) := by
  refine ⟨rfl, fun s hs => ?_, fun s db hs => ?_⟩ <;>
    simp [JsonDB.load_poems, hs]

theorem load_poems_total_witness :
    JsonDB.load_poems (fun _ => none) (.present "not json") = [] ∧
    JsonDB.load_poems (fun _ => some [("7", [])]) (.present "db") = [("7", [])] :=
  ⟨(load_poems_total (fun _ => none)).2.1 "not json" rfl,
   (load_poems_total (fun _ => some [("7", [])])).2.2 "db" [("7", [])] rfl⟩

/-- C7: when any draft field among author/title/text is `None` or empty,
the `/upload` handler reports incomplete data, posts nothing to the
upload API, and leaves the whole session state (draft included)
unchanged. -/
theorem upload_incomplete_draft_unchanged (st : Bot.BotState) (u : Nat)
    (apiOk : Bool) (d : Bot.Draft) (hd : AList.find u st.user_data = some d)
    (hfield : Bot.truthy d.author = false ∨ Bot.truthy d.title = false ∨
      Bot.truthy d.text = false) :
    Bot.upload st u apiOk = (.incompleteDraft, st) := by
  unfold Bot.upload
  rw [hd]
  cases hrid : AList.find u st.user_sessions with
  | none => rfl
  | some rid =>
    have hc : (Bot.truthy d.author && Bot.truthy d.title && Bot.truthy d.text) = false := by
      rcases hfield with h | h | h <;> simp [h]
    simp [hc]

theorem AList.mem_of_find {κ α : Type} [DecidableEq κ] {k : κ} {v : α} :
    ∀ {l : List (κ × α)}, AList.find k l = some v → (k, v) ∈ l := by
  intro l
  induction l with
  | nil => intro h; cases h
  | cons p rest ih =>
    intro h
    simp only [AList.find] at h
    by_cases hp : p.1 = k
    · rw [if_pos hp] at h
      injection h with h
      exact List.mem_cons.mpr (Or.inl (by rw [← hp, ← h]))
    · rw [if_neg hp] at h
      exact List.mem_cons_of_mem _ (ih h)

/-- C9: `delete_poem_db` removes only the poem keyed by
`(slug author, slug title)` for the user and never removes an author:
in the JSON backend every author entry (presence and display name)
survives, the targeted poem is gone, and every other poem is untouched;
in the PostgreSQL backend the users and authors tables are unchanged and
the poems table merely loses the rows keyed by the looked-up author id
and title slug. -/
theorem delete_poem_preserves_authors
    (slug : String → String) (dbJ : DB) (dbP : Pg.PgDB) (u a t : String) :
    ((∀ u2 s2,
        (JsonDB.authorAt (JsonDB.delete_poem_db slug u a t dbJ) u2 s2).map AuthorEntry.author
          = (JsonDB.authorAt dbJ u2 s2).map AuthorEntry.author) ∧
      JsonDB.poemAt (JsonDB.delete_poem_db slug u a t dbJ) u (slug a) (slug t) = none ∧
      (∀ u2 s2 t2, u2 ≠ u ∨ s2 ≠ slug a ∨ t2 ≠ slug t →
        JsonDB.poemAt (JsonDB.delete_poem_db slug u a t dbJ) u2 s2 t2
          = JsonDB.poemAt dbJ u2 s2 t2)) ∧
    ((Pg.delete_poem_db slug dbP u a t).users = dbP.users ∧
      (Pg.delete_poem_db slug dbP u a t).authors = dbP.authors ∧
      (Pg.delete_poem_db slug dbP u a t).poems
        = dbP.poems.filter (fun q => !(Pg.isTargetPoem slug dbP u a t q))) := by
  constructor
  · -- JSON backend
    cases h1 : AList.find u dbJ with
    | none =>
      have hdel : JsonDB.delete_poem_db slug u a t dbJ = dbJ := by
        unfold JsonDB.delete_poem_db
        simp only [h1]
      refine ⟨fun u2 s2 => by rw [hdel], ?_, fun u2 s2 t2 h => by rw [hdel]⟩
      rw [hdel]
      unfold JsonDB.poemAt JsonDB.authorAt
      rw [h1]
      rfl
    | some m =>
      cases h2 : AList.find (slug a) m with
      | none =>
        have hdel : JsonDB.delete_poem_db slug u a t dbJ = dbJ := by
          unfold JsonDB.delete_poem_db
          simp only [h1, h2]
        refine ⟨fun u2 s2 => by rw [hdel], ?_, fun u2 s2 t2 h => by rw [hdel]⟩
        rw [hdel]
        unfold JsonDB.poemAt JsonDB.authorAt
        rw [h1]
        simp [h2]
      | some e =>
        have hdel : JsonDB.delete_poem_db slug u a t dbJ
            = AList.set u
                (AList.set (slug a) ⟨e.author, AList.erase (slug t) e.poems⟩ m) dbJ := by
          unfold JsonDB.delete_poem_db
          simp only [h1, h2]
        refine ⟨fun u2 s2 => ?_, ?_, fun u2 s2 t2 h => ?_⟩
        · rw [hdel]
          unfold JsonDB.authorAt
          by_cases hu2 : u2 = u
          · subst hu2
            rw [AList.find_set_self, h1]
            simp only [Option.some_bind]
            by_cases hs2 : s2 = slug a
            · subst hs2
              rw [AList.find_set_self, h2]
              rfl
            · rw [AList.find_set_ne hs2]
          · rw [AList.find_set_ne hu2]
        · rw [hdel]
          unfold JsonDB.poemAt JsonDB.authorAt
          rw [AList.find_set_self]
          simp only [Option.some_bind]
          rw [AList.find_set_self]
          simp only [Option.some_bind]
          exact AList.find_erase_self _ _
        · rw [hdel]
          unfold JsonDB.poemAt JsonDB.authorAt
          by_cases hu2 : u2 = u
          · subst hu2
            rw [AList.find_set_self, h1]
            simp only [Option.some_bind]
            by_cases hs2 : s2 = slug a
            · subst hs2
              rw [AList.find_set_self, h2]
              simp only [Option.some_bind]
              have ht2 : t2 ≠ slug t := by
                rcases h with h | h | h
                · exact absurd rfl h
                · exact absurd rfl h
                · exact h
              exact AList.find_erase_ne ht2 _
            · rw [AList.find_set_ne hs2]
          · rw [AList.find_set_ne hu2]
  · -- PostgreSQL backend
    cases h1 : dbP.users.find? (fun r => r.user_id == u) with
    | none =>
      refine ⟨?_, ?_, ?_⟩ <;> simp [Pg.delete_poem_db, Pg.isTargetPoem, h1]
    | some ur =>
      cases h2 : dbP.authors.find? (Pg.authKey ur.id (slug a)) with
      | none =>
        refine ⟨?_, ?_, ?_⟩ <;> simp [Pg.delete_poem_db, Pg.isTargetPoem, h1, h2]
      | some ar =>
        refine ⟨?_, ?_, ?_⟩ <;> simp [Pg.delete_poem_db, Pg.isTargetPoem, h1, h2]

theorem delete_poem_preserves_authors_witness :
    (JsonDB.authorAt
        (JsonDB.delete_poem_db slugPlain "7" "ann" "ode"
          [("7", [("ann", ⟨"ann", [("ode", ⟨"ode", "x", "r", "t", "ann/ode"⟩)]⟩)])])
        "7" "ann").map AuthorEntry.author = some "ann" ∧
    (Pg.delete_poem_db slugPlain
        ⟨[⟨1, "7"⟩], [⟨1, 1, "ann", "ann"⟩], [⟨1, 1, "ode", "ode", "x", "ann/ode", "r", "t"⟩],
          2, 2, 2⟩
        "7" "ann" "ode").authors = [⟨1, 1, "ann", "ann"⟩] := by
  constructor
  · rw [(delete_poem_preserves_authors slugPlain
        [("7", [("ann", ⟨"ann", [("ode", ⟨"ode", "x", "r", "t", "ann/ode"⟩)]⟩)])]
        ⟨[], [], [], 1, 1, 1⟩ "7" "ann" "ode").1.1 "7" "ann"]
    rfl
  · exact (delete_poem_preserves_authors slugPlain []
      ⟨[⟨1, "7"⟩], [⟨1, 1, "ann", "ann"⟩], [⟨1, 1, "ode", "ode", "x", "ann/ode", "r", "t"⟩],
        2, 2, 2⟩ "7" "ann" "ode").2.2.1

/-- C1: for valid input (non-empty user id; author, title and text
already whitespace-normalised, as `upload_to_db` strips all fields),
uploading twice with the same `(user_id, author, title)` and a different
text leaves exactly one stored Poem under `(slug author, slug title)` for
that user, whose text is the second call's text — in both the JSON-file
backend and the relational backend; no second Poem record is created. -/
theorem upload_twice_single_poem (slug : String → String) (mu : String)
    (dbJ : DB) (dbP : Pg.PgDB) (u a t x1 x2 r1 r2 now1 now2 : String)
    (hWFJ : JsonDB.WF dbJ)
    (hWFPa : (dbP.authors.map (fun a2 => (a2.user_id, a2.author_slug))).Nodup)
    (hWFPp : (dbP.poems.map (fun q => (q.author_id, q.title_slug))).Nodup)
    (hmu : mu ≠ "") (hu : u ≠ "")
    (ha : pyStrip a = a) (ht : pyStrip t = t) (hx2 : pyStrip x2 = x2)
    (_hne : x1 ≠ x2) :
    (∀ db1 url1 db2 url2,
      JsonDB.upload_to_db slug dbJ (mkPoem u a t x1 r1) now1 = .ok (db1, url1) →
      JsonDB.upload_to_db slug db1 (mkPoem u a t x2 r2) now2 = .ok (db2, url2) →
      JsonDB.poemCount db2 u (slug a) (slug t) = 1 ∧
      (JsonDB.poemAt db2 u (slug a) (slug t)).map PoemInfo.poem = some x2) ∧
    (∀ db1 url1 db2 url2,
      Pg.upload_to_db slug mu dbP (mkPoem u a t x1 r1) now1 = .ok (db1, url1) →
      Pg.upload_to_db slug mu db1 (mkPoem u a t x2 r2) now2 = .ok (db2, url2) →
      Pg.poemCountBySlug db2 u (slug a) (slug t) = 1 ∧
      Pg.poemTextsBySlug db2 u (slug a) (slug t) = [x2]) := by
  constructor
  · -- JSON-file backend
    intro db1 url1 db2 url2 h1 h2
    have he1 := JsonDB.upload_entry slug dbJ (mkPoem u a t x1 r1) now1 h1
    have he2 := JsonDB.upload_entry slug db1 (mkPoem u a t x2 r2) now2 h2
    simp only [mkPoem, pyStr, Option.getD_some, ha, ht, hx2] at he1 he2
    obtain ⟨e1, he1A, he1P⟩ := he1
    obtain ⟨e2, he2A, he2P⟩ := he2
    -- the second call's base dictionary is the first call's result
    have hbase2 : JsonDB.poemsAt db1 u (slug a) = e1.poems := by
      unfold JsonDB.poemsAt
      rw [he1A]
    rw [hbase2, he1P] at he2P
    -- the original author's poems dictionary has unique keys
    have hnod0 : AList.WFKeys (JsonDB.poemsAt dbJ u (slug a)) := by
      unfold JsonDB.poemsAt
      cases hfA : JsonDB.authorAt dbJ u (slug a) with
      | none => exact List.nodup_nil
      | some e0 =>
        unfold JsonDB.authorAt at hfA
        cases hfu : AList.find u dbJ with
        | none =>
          rw [hfu] at hfA
          exact Option.noConfusion hfA
        | some m =>
          rw [hfu, Option.some_bind] at hfA
          have hmmem := AList.mem_of_find hfu
          have hemem := AList.mem_of_find hfA
          exact ((hWFJ.2 (u, m) hmmem).2 (slug a, e0) hemem)
    have hnod1 : AList.WFKeys
        (AList.set (slug t)
          ⟨t, pyStrip x1, pyStrip r1, now1, slug a ++ "/" ++ slug t⟩
          (JsonDB.poemsAt dbJ u (slug a))) :=
      AList.keys_set_nodup hnod0 _
    constructor
    · unfold JsonDB.poemCount JsonDB.authorAt
      unfold JsonDB.authorAt at he2A
      rw [he2A]
      show AList.countKey (slug t) e2.poems = 1
      rw [he2P]
      exact AList.countKey_set_self hnod1 _
    · unfold JsonDB.poemAt
      rw [he2A]
      simp only [Option.some_bind]
      rw [he2P, AList.find_set_self]
      rfl
  · -- relational backend
    intro db1 url1 db2 url2 h1 h2
    rw [Pg.upload_to_db_eq slug mu dbP (mkPoem u a t x1 r1) now1 hmu hu] at h1
    rw [Pg.upload_to_db_eq slug mu db1 (mkPoem u a t x2 r2) now2 hmu hu] at h2
    simp only [mkPoem, pyStr, Option.getD_some, ha, ht, hx2] at h1 h2
    injection h1 with h1'
    injection h1' with h1db h1url
    injection h2 with h2'
    injection h2' with h2db h2url
    -- first call
    have heuT := Pg.ensure_user_tables dbP u
    have heuF := Pg.ensure_user_find dbP u
    have hle1 : (Pg.ensure_user dbP u).1.authors.countP
        (Pg.authKey (Pg.ensure_user dbP u).2 (slug a)) ≤ 1 := by
      rw [heuT.1]
      exact Pg.countP_authKey_le_one hWFPa _ _
    have hea1 := Pg.ensure_author_spec slug (Pg.ensure_user dbP u).1
      (Pg.ensure_user dbP u).2 a hle1
    have heaT := Pg.ensure_author_tables slug (Pg.ensure_user dbP u).1
      (Pg.ensure_user dbP u).2 a
    have hlep1 : (Pg.ensure_author slug (Pg.ensure_user dbP u).1
        (Pg.ensure_user dbP u).2 a).1.poems.countP
        (Pg.poemKey (Pg.ensure_author slug (Pg.ensure_user dbP u).1
          (Pg.ensure_user dbP u).2 a).2 (slug t)) ≤ 1 := by
      rw [heaT.2, heuT.2]
      exact Pg.countP_poemKey_le_one hWFPp _ _
    have hup1 := Pg.upsert_poem_spec
      (Pg.ensure_author slug (Pg.ensure_user dbP u).1 (Pg.ensure_user dbP u).2 a).1
      (Pg.ensure_author slug (Pg.ensure_user dbP u).1 (Pg.ensure_user dbP u).2 a).2
      t (slug t) (pyStrip x1)
      (if u = mu then slug a ++ "/" ++ slug t
        else "id/" ++ u ++ "/" ++ slug a ++ "/" ++ slug t)
      (pyStrip r1) now1 hlep1
    have hdb1users : db1.users = (Pg.ensure_user dbP u).1.users := by
      rw [← h1db, (Pg.upsert_poem_tables _ _ _ _ _ _ _ _).1,
        (Pg.ensure_author_tables _ _ _ _).1]
    have hdb1auth : db1.authors
        = (Pg.ensure_author slug (Pg.ensure_user dbP u).1
            (Pg.ensure_user dbP u).2 a).1.authors := by
      rw [← h1db, (Pg.upsert_poem_tables _ _ _ _ _ _ _ _).2]
    have hdb1poems : db1.poems.countP
        (Pg.poemKey (Pg.ensure_author slug (Pg.ensure_user dbP u).1
          (Pg.ensure_user dbP u).2 a).2 (slug t)) = 1 := by
      rw [← h1db]
      exact hup1.1
    -- second call: same user row
    have hfound : db1.users.find? (fun r => r.user_id == u)
        = some ⟨(Pg.ensure_user dbP u).2, u⟩ := by
      rw [hdb1users]
      exact heuF
    have heu2 : Pg.ensure_user db1 u = (db1, (Pg.ensure_user dbP u).2) :=
      Pg.ensure_user_of_found db1 u hfound
    have hst2 : (Pg.ensure_user db1 u).1 = db1 := by rw [heu2]
    have huid2 : (Pg.ensure_user db1 u).2 = (Pg.ensure_user dbP u).2 := by rw [heu2]
    -- second call: same author row, same author id
    have hle2 : (Pg.ensure_user db1 u).1.authors.countP
        (Pg.authKey (Pg.ensure_user db1 u).2 (slug a)) ≤ 1 := by
      rw [hst2, huid2, hdb1auth, hea1.1]
    have hea2 := Pg.ensure_author_spec slug (Pg.ensure_user db1 u).1
      (Pg.ensure_user db1 u).2 a hle2
    rw [hst2, huid2] at hea2
    have hcnt1' : db1.authors.countP
        (Pg.authKey (Pg.ensure_user dbP u).2 (slug a)) = 1 := by
      rw [hdb1auth]
      exact hea1.1
    obtain ⟨rA, hrAmem, hrAkey⟩ := List.countP_pos_iff.mp
      (by rw [hcnt1']; exact Nat.one_pos)
    have hfound2 : ∃ ra, db1.authors.find? (Pg.authKey (Pg.ensure_user dbP u).2 (slug a))
        = some ra := by
      cases hfa : db1.authors.find? (Pg.authKey (Pg.ensure_user dbP u).2 (slug a)) with
      | none => exact absurd hrAkey (List.find?_eq_none.mp hfa rA hrAmem)
      | some ra => exact ⟨ra, rfl⟩
    obtain ⟨ra, hra⟩ := hfound2
    have hraid : ra.id = (Pg.ensure_author slug (Pg.ensure_user dbP u).1
        (Pg.ensure_user dbP u).2 a).2 := by
      have hmem := List.mem_of_find?_eq_some hra
      have hkey := List.find?_some hra
      rw [hdb1auth] at hmem
      exact (hea1.2 ra hmem hkey).2
    have haid2 : (Pg.ensure_author slug db1 (Pg.ensure_user dbP u).2 a).2
        = (Pg.ensure_author slug (Pg.ensure_user dbP u).1
            (Pg.ensure_user dbP u).2 a).2 := by
      rw [Pg.ensure_author_id_of_found slug db1 (Pg.ensure_user dbP u).2 a hra]
      exact hraid
    rw [hst2, huid2, haid2] at h2db
    rw [haid2] at hea2
    -- second call: the upsert hits the single existing poem row
    have heaT2 := Pg.ensure_author_tables slug db1 (Pg.ensure_user dbP u).2 a
    have hlep2 : (Pg.ensure_author slug db1 (Pg.ensure_user dbP u).2 a).1.poems.countP
        (Pg.poemKey (Pg.ensure_author slug (Pg.ensure_user dbP u).1
          (Pg.ensure_user dbP u).2 a).2 (slug t)) ≤ 1 := by
      rw [heaT2.2, hdb1poems]
    have hup2 := Pg.upsert_poem_spec
      (Pg.ensure_author slug db1 (Pg.ensure_user dbP u).2 a).1
      (Pg.ensure_author slug (Pg.ensure_user dbP u).1 (Pg.ensure_user dbP u).2 a).2
      t (slug t) x2
      (if u = mu then slug a ++ "/" ++ slug t
        else "id/" ++ u ++ "/" ++ slug a ++ "/" ++ slug t)
      (pyStrip r2) now2 hlep2
    -- components of the final database
    have hdb2users : db2.users.find? (fun r => r.user_id == u)
        = some ⟨(Pg.ensure_user dbP u).2, u⟩ := by
      rw [← h2db, (Pg.upsert_poem_tables _ _ _ _ _ _ _ _).1, heaT2.1]
      exact hfound
    have hdb2auth : db2.authors
        = (Pg.ensure_author slug db1 (Pg.ensure_user dbP u).2 a).1.authors := by
      rw [← h2db, (Pg.upsert_poem_tables _ _ _ _ _ _ _ _).2]
    have hcnt2 : db2.authors.countP
        (Pg.authKey (Pg.ensure_user dbP u).2 (slug a)) = 1 := by
      rw [hdb2auth]
      exact hea2.1
    have hkeyid : ∀ a2 ∈ db2.authors, Pg.authKey (Pg.ensure_user dbP u).2 (slug a) a2 = true →
        a2.id = (Pg.ensure_author slug (Pg.ensure_user dbP u).1
          (Pg.ensure_user dbP u).2 a).2 := by
      rw [hdb2auth]
      intro a2 h2m hk
      exact (hea2.2 a2 h2m hk).2
    obtain ⟨rb, hrbmem, hrbkey⟩ := List.countP_pos_iff.mp
      (by rw [hcnt2]; exact Nat.one_pos)
    -- the membership predicate of the accessor coincides with the poem key
    have hany : (fun p : Pg.PoemRow =>
        db2.authors.any (fun a2 => Pg.authKey (Pg.ensure_user dbP u).2 (slug a) a2 &&
          p.author_id == a2.id) && p.title_slug == slug t)
        = Pg.poemKey (Pg.ensure_author slug (Pg.ensure_user dbP u).1
            (Pg.ensure_user dbP u).2 a).2 (slug t) := by
      funext p
      have hiff : (db2.authors.any (fun a2 => Pg.authKey (Pg.ensure_user dbP u).2 (slug a) a2 &&
          p.author_id == a2.id))
          = (p.author_id == (Pg.ensure_author slug (Pg.ensure_user dbP u).1
              (Pg.ensure_user dbP u).2 a).2) := by
        rw [Bool.eq_iff_iff]
        constructor
        · intro hany2
          obtain ⟨a2, ha2, hconj⟩ := List.any_eq_true.mp hany2
          rw [Bool.and_eq_true] at hconj
          obtain ⟨hk2, hid2⟩ := hconj
          have hident : p.author_id = a2.id := by simpa using hid2
          rw [hident, hkeyid a2 ha2 hk2]
          simp
        · intro hpk
          have hpk' : p.author_id = (Pg.ensure_author slug (Pg.ensure_user dbP u).1
              (Pg.ensure_user dbP u).2 a).2 := by simpa using hpk
          refine List.any_eq_true.mpr ⟨rb, hrbmem, ?_⟩
          rw [hrbkey]
          simp [hpk', hkeyid rb hrbmem hrbkey]
      rw [hiff]
      rfl
    constructor
    · unfold Pg.poemCountBySlug
      rw [hdb2users]
      show db2.poems.countP (fun p =>
        db2.authors.any (fun a2 => Pg.authKey (Pg.ensure_user dbP u).2 (slug a) a2 &&
          p.author_id == a2.id) && p.title_slug == slug t) = 1
      rw [hany, ← h2db]
      exact hup2.1
    · unfold Pg.poemTextsBySlug
      rw [hdb2users]
      show (db2.poems.filter (fun p =>
        db2.authors.any (fun a2 => Pg.authKey (Pg.ensure_user dbP u).2 (slug a) a2 &&
          p.author_id == a2.id) && p.title_slug == slug t)).map Pg.PoemRow.poem = [x2]
      rw [hany, ← h2db]
      exact filter_map_eq_single _ hup2.1 (fun q hq hk => (hup2.2.1 q hq hk))

theorem upload_twice_single_poem_witness :
    JsonDB.poemCount
      (okStateD []
        (JsonDB.upload_to_db slugPlain
          (okStateD []
            (JsonDB.upload_to_db slugPlain [] (mkPoem "42" "ann" "ode" "v1" "r1") "t1"))
          (mkPoem "42" "ann" "ode" "v2" "r2") "t2"))
      "42" (slugPlain "ann") (slugPlain "ode") = 1 ∧
    (JsonDB.poemAt
      (okStateD []
        (JsonDB.upload_to_db slugPlain
          (okStateD []
            (JsonDB.upload_to_db slugPlain [] (mkPoem "42" "ann" "ode" "v1" "r1") "t1"))
          (mkPoem "42" "ann" "ode" "v2" "r2") "t2"))
      "42" (slugPlain "ann") (slugPlain "ode")).map PoemInfo.poem = some "v2" ∧
    Pg.poemTextsBySlug
      (okStateD Pg.emptyDB
        (Pg.upload_to_db slugPlain "1"
          (okStateD Pg.emptyDB
            (Pg.upload_to_db slugPlain "1" Pg.emptyDB (mkPoem "42" "ann" "ode" "v1" "r1") "t1"))
          (mkPoem "42" "ann" "ode" "v2" "r2") "t2"))
      "42" (slugPlain "ann") (slugPlain "ode") = ["v2"] := by
  have h := upload_twice_single_poem slugPlain "1" [] Pg.emptyDB "42" "ann" "ode"
    "v1" "v2" "r1" "r2" "t1" "t2" (by decide) (by decide) (by decide) (by decide)
    (by decide) (by decide) (by decide) (by decide) (by decide)
  have hj := h.1
    (okStateD []
      (JsonDB.upload_to_db slugPlain [] (mkPoem "42" "ann" "ode" "v1" "r1") "t1"))
    "ann/ode"
    (okStateD []
      (JsonDB.upload_to_db slugPlain
        (okStateD []
          (JsonDB.upload_to_db slugPlain [] (mkPoem "42" "ann" "ode" "v1" "r1") "t1"))
        (mkPoem "42" "ann" "ode" "v2" "r2") "t2"))
    "ann/ode" (by rfl) (by rfl)
  have hp := h.2
    (okStateD Pg.emptyDB
      (Pg.upload_to_db slugPlain "1" Pg.emptyDB (mkPoem "42" "ann" "ode" "v1" "r1") "t1"))
    "id/42/ann/ode"
    (okStateD Pg.emptyDB
      (Pg.upload_to_db slugPlain "1"
        (okStateD Pg.emptyDB
          (Pg.upload_to_db slugPlain "1" Pg.emptyDB (mkPoem "42" "ann" "ode" "v1" "r1") "t1"))
        (mkPoem "42" "ann" "ode" "v2" "r2") "t2"))
    "id/42/ann/ode" (by rfl) (by rfl)
  exact ⟨hj.1, hj.2, hp.2⟩

/-- C2 counterexample: author display names are stripped on upsert, so
upserting under `x = "ann"` and then `y = " ann "` (same slug — `slugify`
strips whitespace) leaves ONE author row whose display name is
`"ann"`, not the raw latest value `" ann "` the claim asserts. -/
theorem author_rename_strips_display :
    Pg.authorNamesBySlug
      (okStateD Pg.emptyDB (Pg.upload_to_db slugPlain "1"
        (okStateD Pg.emptyDB
          (Pg.upload_to_db slugPlain "1" Pg.emptyDB (mkPoem "1" "ann" "ode" "x1" "r1") "t1"))
        (mkPoem "1" " ann " "ode" "x2" "r2") "t2"))
      "1" (slugPlain " ann ") = ["ann"] ∧
    (" ann " : String) ≠ "ann" :=
  ⟨by decide, by decide⟩

/-- C2 (amended): when `slug(strip x) = slug(strip y)` (as holds for
`slugify`, which ignores surrounding whitespace, whenever
`slug x = slug y`), upserting a poem under author name `x` and then under
`y` for the same user leaves exactly one Author record for
`(user, author_slug)` — in both the JSON-file backend and the relational
backend — and its stored display name is `y` stripped of surrounding
whitespace (the latest value as normalised by the code), not two
records. -/
theorem author_rename_single_row (slug : String → String) (mu : String)
    (dbJ : DB) (dbP : Pg.PgDB) (u x y t1 t2 x1 x2 r1 r2 now1 now2 : String)
    (hWFJ : JsonDB.WF dbJ)
    (hWF : (dbP.authors.map (fun a => (a.user_id, a.author_slug))).Nodup)
    (hmu : mu ≠ "") (hu : u ≠ "")
    (hxy : slug (pyStrip x) = slug (pyStrip y)) :
    (∀ db1 url1 db2 url2,
      JsonDB.upload_to_db slug dbJ (mkPoem u x t1 x1 r1) now1 = .ok (db1, url1) →
      JsonDB.upload_to_db slug db1 (mkPoem u y t2 x2 r2) now2 = .ok (db2, url2) →
      JsonDB.authorCount db2 u (slug (pyStrip y)) = 1 ∧
      (JsonDB.authorAt db2 u (slug (pyStrip y))).map AuthorEntry.author
        = some (pyStrip y)) ∧
    (∀ db1 url1 db2 url2,
      Pg.upload_to_db slug mu dbP (mkPoem u x t1 x1 r1) now1 = .ok (db1, url1) →
      Pg.upload_to_db slug mu db1 (mkPoem u y t2 x2 r2) now2 = .ok (db2, url2) →
      Pg.authorCountBySlug db2 u (slug (pyStrip y)) = 1 ∧
      Pg.authorNamesBySlug db2 u (slug (pyStrip y)) = [pyStrip y]) := by
  constructor
  · -- JSON-file backend
    intro db1 url1 db2 url2 h1 h2
    have hWFm1 : AList.WFKeys ((AList.find u dbJ).getD []) := by
      cases hf : AList.find u dbJ with
      | none => exact List.nodup_nil
      | some m => exact (hWFJ.2 (u, m) (AList.mem_of_find hf)).1
    have hA1 := JsonDB.upload_author_entry slug dbJ (mkPoem u x t1 x1 r1) now1 h1
      (by simpa [mkPoem, pyStr] using hWFm1)
    simp only [mkPoem, pyStr, Option.getD_some] at hA1
    have hA2 := JsonDB.upload_author_entry slug db1 (mkPoem u y t2 x2 r2) now2 h2
      (by simpa [mkPoem, pyStr] using hA1.2.2)
    simp only [mkPoem, pyStr, Option.getD_some] at hA2
    obtain ⟨⟨e2, he2A, he2name⟩, hcount2, _⟩ := hA2
    refine ⟨hcount2, ?_⟩
    rw [he2A]
    simp [he2name]
  · -- relational backend
    intro db1 url1 db2 url2 h1 h2
    rw [Pg.upload_to_db_eq slug mu dbP (mkPoem u x t1 x1 r1) now1 hmu hu] at h1
    rw [Pg.upload_to_db_eq slug mu db1 (mkPoem u y t2 x2 r2) now2 hmu hu] at h2
    simp only [mkPoem, pyStr, Option.getD_some] at h1 h2
    injection h1 with h1'
    injection h1' with h1db h1url
    injection h2 with h2'
    injection h2' with h2db h2url
    -- phase facts of the first call
    have heuT := Pg.ensure_user_tables dbP u
    have heuF := Pg.ensure_user_find dbP u
    have hle1 : (Pg.ensure_user dbP u).1.authors.countP
        (Pg.authKey (Pg.ensure_user dbP u).2 (slug (pyStrip x))) ≤ 1 := by
      rw [heuT.1]
      exact Pg.countP_authKey_le_one hWF _ _
    have hea1 := Pg.ensure_author_spec slug (Pg.ensure_user dbP u).1
      (Pg.ensure_user dbP u).2 (pyStrip x) hle1
    have hdb1users : db1.users = (Pg.ensure_user dbP u).1.users := by
      rw [← h1db, (Pg.upsert_poem_tables _ _ _ _ _ _ _ _).1,
        (Pg.ensure_author_tables _ _ _ _).1]
    have hdb1auth : db1.authors
        = (Pg.ensure_author slug (Pg.ensure_user dbP u).1
            (Pg.ensure_user dbP u).2 (pyStrip x)).1.authors := by
      rw [← h1db, (Pg.upsert_poem_tables _ _ _ _ _ _ _ _).2]
    -- the second call finds the same user row, hence the same user id
    have hfound : db1.users.find? (fun r => r.user_id == u)
        = some ⟨(Pg.ensure_user dbP u).2, u⟩ := by
      rw [hdb1users]
      exact heuF
    have heu2 : Pg.ensure_user db1 u = (db1, (Pg.ensure_user dbP u).2) :=
      Pg.ensure_user_of_found db1 u hfound
    have hst2 : (Pg.ensure_user db1 u).1 = db1 := by rw [heu2]
    have huid2 : (Pg.ensure_user db1 u).2 = (Pg.ensure_user dbP u).2 := by rw [heu2]
    -- the second `ensure_author` call acts on a table holding exactly one
    -- row with the shared key
    have hle2 : (Pg.ensure_user db1 u).1.authors.countP
        (Pg.authKey (Pg.ensure_user db1 u).2 (slug (pyStrip y))) ≤ 1 := by
      rw [hst2, huid2, ← hxy, hdb1auth, hea1.1]
    have hea2 := Pg.ensure_author_spec slug (Pg.ensure_user db1 u).1
      (Pg.ensure_user db1 u).2 (pyStrip y) hle2
    rw [hst2, huid2] at hea2
    have hdb2users : db2.users = db1.users := by
      rw [← h2db, (Pg.upsert_poem_tables _ _ _ _ _ _ _ _).1,
        (Pg.ensure_author_tables _ _ _ _).1, hst2]
    have hdb2auth : db2.authors
        = (Pg.ensure_author slug db1 (Pg.ensure_user dbP u).2 (pyStrip y)).1.authors := by
      rw [← h2db, (Pg.upsert_poem_tables _ _ _ _ _ _ _ _).2, hst2, huid2]
    have hfound2 : db2.users.find? (fun r => r.user_id == u)
        = some ⟨(Pg.ensure_user dbP u).2, u⟩ := by
      rw [hdb2users, hdb1users]
      exact heuF
    constructor
    · unfold Pg.authorCountBySlug
      rw [hfound2]
      show db2.authors.countP
        (Pg.authKey (Pg.ensure_user dbP u).2 (slug (pyStrip y))) = 1
      rw [hdb2auth]
      exact hea2.1
    · unfold Pg.authorNamesBySlug
      rw [hfound2]
      show (db2.authors.filter
        (Pg.authKey (Pg.ensure_user dbP u).2 (slug (pyStrip y)))).map Pg.AuthorRow.author
        = [pyStrip y]
      rw [hdb2auth]
      exact filter_map_eq_single _ hea2.1 (fun a ha hk => (hea2.2 a ha hk).1)

theorem author_rename_single_row_witness :
    JsonDB.authorCount
      (okStateD [] (JsonDB.upload_to_db slugPlain
        (okStateD []
          (JsonDB.upload_to_db slugPlain [] (mkPoem "1" "ann" "ode" "x1" "r1") "t1"))
        (mkPoem "1" " ann " "ode" "x2" "r2") "t2"))
      "1" "ann" = 1 ∧
    Pg.authorCountBySlug
      (okStateD Pg.emptyDB (Pg.upload_to_db slugPlain "1"
        (okStateD Pg.emptyDB
          (Pg.upload_to_db slugPlain "1" Pg.emptyDB (mkPoem "1" "ann" "ode" "x1" "r1") "t1"))
        (mkPoem "1" " ann " "ode" "x2" "r2") "t2"))
      "1" "ann" = 1 := by
  have h := author_rename_single_row slugPlain "1" [] Pg.emptyDB "1" "ann" " ann "
    "ode" "ode" "x1" "x2" "r1" "r2" "t1" "t2" (by decide) (by decide) (by decide)
    (by decide) (by decide)
  have hj := h.1
    (okStateD []
      (JsonDB.upload_to_db slugPlain [] (mkPoem "1" "ann" "ode" "x1" "r1") "t1"))
    "ann/ode"
    (okStateD [] (JsonDB.upload_to_db slugPlain
      (okStateD []
        (JsonDB.upload_to_db slugPlain [] (mkPoem "1" "ann" "ode" "x1" "r1") "t1"))
      (mkPoem "1" " ann " "ode" "x2" "r2") "t2"))
    "ann/ode" (by rfl) (by rfl)
  have hp := h.2
    (okStateD Pg.emptyDB
      (Pg.upload_to_db slugPlain "1" Pg.emptyDB (mkPoem "1" "ann" "ode" "x1" "r1") "t1"))
    "ann/ode"
    (okStateD Pg.emptyDB (Pg.upload_to_db slugPlain "1"
      (okStateD Pg.emptyDB
        (Pg.upload_to_db slugPlain "1" Pg.emptyDB (mkPoem "1" "ann" "ode" "x1" "r1") "t1"))
      (mkPoem "1" " ann " "ode" "x2" "r2") "t2"))
    "ann/ode" (by rfl) (by rfl)
  have hs : slugPlain (pyStrip " ann ") = "ann" := by decide
  constructor
  · rw [← hs]
    exact hj.1
  · rw [← hs]
    exact hp.1

/-- C3: `delete_user_db` removes everything scoped to the user and a
subsequent `get_poems_by_user` returns the empty mapping: in the JSON
backend the user's key (with all its authors and poems) is popped; in the
PostgreSQL backend no author row of the user and no poem row hanging off
such an author survives the cascade, and the user lookup afterwards
finds nothing. -/
theorem delete_user_cascades (dbJ : DB) (dbP : Pg.PgDB) (u : String)
    (hWF : (dbP.users.map Pg.UserRow.user_id).Nodup) :
    AList.find u (JsonDB.delete_user_db u dbJ) = none ∧
    JsonDB.get_poems_by_user u (JsonDB.delete_user_db u dbJ) = [] ∧
    (∀ a ∈ (Pg.delete_user_db dbP u).authors, ∀ ur ∈ dbP.users,
      ur.user_id = u → a.user_id ≠ ur.id) ∧
    (∀ p ∈ (Pg.delete_user_db dbP u).poems, ∀ a ∈ dbP.authors, ∀ ur ∈ dbP.users,
      ur.user_id = u → a.user_id = ur.id → p.author_id ≠ a.id) ∧
    Pg.get_poems_by_user (Pg.delete_user_db dbP u) u = [] := by
  refine ⟨AList.find_erase_self u dbJ, ?_, ?_, ?_, ?_⟩
  · unfold JsonDB.get_poems_by_user JsonDB.delete_user_db
    rw [AList.find_erase_self]
    rfl
  all_goals
    cases h1 : dbP.users.find? (fun r => r.user_id == u) with
    | none =>
      have hnone := List.find?_eq_none.mp h1
      have hdel : Pg.delete_user_db dbP u = dbP := by
        unfold Pg.delete_user_db
        simp only [h1]
      first
      | (intro a ha ur hur huru
         exact fun _ => hnone ur hur (by simp [huru]))
      | (intro p hp a ha ur hur huru hau
         exact fun _ => hnone ur hur (by simp [huru]))
      | (unfold Pg.get_poems_by_user
         rw [hdel, h1])
    | some ur0 =>
      have hur0mem := List.mem_of_find?_eq_some h1
      have hur0u : ur0.user_id = u := by
        have := List.find?_some h1
        simpa using this
      have uniq : ∀ r ∈ dbP.users, r.user_id = u → r = ur0 := fun r hr hru =>
        nodup_map_inj hWF hr hur0mem (by rw [hru, hur0u])
      have hdel : Pg.delete_user_db dbP u
          = { dbP with
              users := dbP.users.filter (fun r => !(r.id == ur0.id))
              authors := dbP.authors.filter (fun a => !(a.user_id == ur0.id))
              poems := dbP.poems.filter (fun p =>
                !(dbP.authors.any (fun a => a.user_id == ur0.id && a.id == p.author_id))) } := by
        unfold Pg.delete_user_db
        simp only [h1]
      first
      | (intro a ha ur hur huru
         rw [hdel] at ha
         have hkeep := List.of_mem_filter ha
         have : a.user_id ≠ ur0.id := by simpa using hkeep
         rw [uniq ur hur huru]
         exact this)
      | (intro p hp a ha ur hur huru hau
         rw [hdel] at hp
         have hkeep := List.of_mem_filter hp
         intro hpa
         have hany : dbP.authors.any (fun a2 => a2.user_id == ur0.id && a2.id == p.author_id) = true :=
           List.any_eq_true.mpr ⟨a, ha, by
             rw [uniq ur hur huru] at hau
             simp [hau, hpa.symm]⟩
         rw [hany] at hkeep
         cases hkeep)
      | (have hfind : ((Pg.delete_user_db dbP u).users.find? (fun r => r.user_id == u)) = none := by
           rw [hdel]
           refine List.find?_eq_none.mpr ?_
           intro r hr
           have hrin := List.mem_of_mem_filter hr
           have hrid := List.of_mem_filter hr
           intro hbeq
           have hru : r.user_id = u := by simpa using hbeq
           have : r = ur0 := uniq r hrin hru
           rw [this] at hrid
           simp at hrid
         unfold Pg.get_poems_by_user
         rw [hfind])

theorem delete_user_cascades_witness :
    JsonDB.get_poems_by_user "7"
      (JsonDB.delete_user_db "7"
        [("7", [("ann", ⟨"ann", [("ode", ⟨"ode", "x", "r", "t", "ann/ode"⟩)]⟩)])]) = [] ∧
    Pg.get_poems_by_user
      (Pg.delete_user_db
        ⟨[⟨1, "7"⟩], [⟨1, 1, "ann", "ann"⟩], [⟨1, 1, "ode", "ode", "x", "ann/ode", "r", "t"⟩],
          2, 2, 2⟩ "7") "7" = [] := by
  have h := delete_user_cascades
    [("7", [("ann", ⟨"ann", [("ode", ⟨"ode", "x", "r", "t", "ann/ode"⟩)]⟩)])]
    ⟨[⟨1, "7"⟩], [⟨1, 1, "ann", "ann"⟩], [⟨1, 1, "ode", "ode", "x", "ann/ode", "r", "t"⟩],
      2, 2, 2⟩ "7" (by decide)
  exact ⟨h.2.1, h.2.2.2.2⟩

/-- C8: `create_session` first destroys any pre-existing session of the
user (its scratch directory and both in-memory entries), then records the
freshly generated request id, creates its scratch directory, and resets
the draft to `{author: "Unknown", title: None, text: None}`; afterwards
the user has exactly one session binding and the state is again
well-formed, so at most one session per user ever exists. -/
theorem create_session_fresh_singleton (st : Bot.BotState) (u : Nat) (rid : String)
    (hWF : Bot.WF st)
    (hfresh : ∀ old, AList.find u st.user_sessions = some old → old ≠ rid) :
    (Bot.create_session st u rid).1 = rid ∧
    AList.find u (Bot.create_session st u rid).2.user_sessions = some rid ∧
    AList.find u (Bot.create_session st u rid).2.user_data = some Bot.defaultDraft ∧
    rid ∈ (Bot.create_session st u rid).2.dirs ∧
    (∀ old, AList.find u st.user_sessions = some old →
      old ∉ (Bot.create_session st u rid).2.dirs) ∧
    AList.countKey u (Bot.create_session st u rid).2.user_sessions = 1 ∧
    Bot.WF (Bot.create_session st u rid).2 := by
  obtain ⟨hWFs, hWFd, hWFdirs⟩ := hWF
  have hcount : AList.countKey u (AList.set u rid (AList.erase u st.user_sessions)) = 1 := by
    rw [AList.set_of_find_none (AList.find_erase_self u st.user_sessions) rid,
      AList.countKey, List.countP_append]
    have h0 := AList.countKey_erase_self u st.user_sessions
    rw [AList.countKey] at h0
    simp [h0]
  have hdirs : ∀ dirs1 : List String, dirs1.Nodup →
      (rid ∈ if dirs1.contains rid then dirs1 else dirs1 ++ [rid]) ∧
        (if dirs1.contains rid then dirs1 else dirs1 ++ [rid]).Nodup := by
    intro dirs1 hnd
    by_cases hc : dirs1.contains rid
    · refine ⟨?_, by simp only [if_pos hc]; exact hnd⟩
      simp only [if_pos hc]
      rcases List.contains_iff_exists_mem_beq.mp hc with ⟨d, hd, hbeq⟩
      have : rid = d := by simpa using hbeq
      rw [this]
      exact hd
    · refine ⟨?_, ?_⟩ <;> simp only [if_neg hc]
      · exact List.mem_append_right _ (List.mem_singleton.mpr rfl)
      · rw [List.nodup_append]
        refine ⟨hnd, List.nodup_singleton rid, ?_⟩
        intro d hd hd'
        rw [List.mem_singleton.mp hd'] at hd
        exact hc (List.contains_iff_exists_mem_beq.mpr ⟨rid, hd, by simp⟩)
  unfold Bot.create_session Bot.delete_user_session
  cases hfind : AList.find u st.user_sessions with
  | none =>
    refine ⟨rfl, AList.find_set_self u rid _, AList.find_set_self u Bot.defaultDraft _,
      (hdirs st.dirs hWFdirs).1, ?_, hcount,
      AList.keys_set_nodup (AList.keys_erase_nodup hWFs u) rid,
      AList.keys_set_nodup (AList.keys_erase_nodup hWFd u) Bot.defaultDraft,
      (hdirs st.dirs hWFdirs).2⟩
    intro old hold
    exact Option.noConfusion hold
  | some r0 =>
    have hnd1 : (st.dirs.filter (fun d => !(d == r0))).Nodup :=
      (List.filter_sublist st.dirs).nodup hWFdirs
    refine ⟨rfl, AList.find_set_self u rid _, AList.find_set_self u Bot.defaultDraft _,
      (hdirs _ hnd1).1, ?_, hcount,
      AList.keys_set_nodup (AList.keys_erase_nodup hWFs u) rid,
      AList.keys_set_nodup (AList.keys_erase_nodup hWFd u) Bot.defaultDraft,
      (hdirs _ hnd1).2⟩
    intro old hold
    obtain rfl : r0 = old := by injection hold
    have hnot1 : r0 ∉ st.dirs.filter (fun d => !(d == r0)) := by
      intro hmem
      have := List.of_mem_filter hmem
      simp at this
    show r0 ∉
      (if (st.dirs.filter (fun d => !(d == r0))).contains rid = true
        then st.dirs.filter (fun d => !(d == r0))
        else st.dirs.filter (fun d => !(d == r0)) ++ [rid])
    intro hmem2
    by_cases hc : (st.dirs.filter (fun d => !(d == r0))).contains rid
    · rw [if_pos hc] at hmem2
      exact hnot1 hmem2
    · rw [if_neg hc] at hmem2
      rcases List.mem_append.mp hmem2 with h | h
      · exact hnot1 h
      · exact hfresh r0 hfind (List.mem_singleton.mp h)

theorem create_session_fresh_singleton_witness :
    (Bot.create_session ⟨[(7, "old1")], [(7, ⟨some "ann", some "ode", some "x"⟩)], ["old1"]⟩
        7 "fresh1").2
      = ⟨[(7, "fresh1")], [(7, Bot.defaultDraft)], ["fresh1"]⟩ ∧
    AList.countKey 7
      (Bot.create_session ⟨[(7, "old1")], [(7, ⟨some "ann", some "ode", some "x"⟩)], ["old1"]⟩
        7 "fresh1").2.user_sessions = 1 := by
  have h := create_session_fresh_singleton
    ⟨[(7, "old1")], [(7, ⟨some "ann", some "ode", some "x"⟩)], ["old1"]⟩ 7 "fresh1"
    (by constructor <;> simp [AList.WFKeys]) (by
      intro old hold
      cases hold
      decide)
  exact ⟨by decide, h.2.2.2.2.2.1⟩

theorem Bot.expectedFiles_length (start : Nat) (ds : List (Option String)) :
    (Bot.expectedFiles start ds).length = ds.length := by
  induction ds generalizing start with
  | nil => rfl
  | cons d ds ih => simp [Bot.expectedFiles, ih]

theorem Bot.expectedFiles_all_images (start : Nat) (ds : List (Option String)) :
    ∀ f ∈ Bot.expectedFiles start ds, Bot.isImageFile f = true := by
  induction ds generalizing start with
  | nil => intro f hf; cases hf
  | cons d ds ih =>
    intro f hf
    rcases List.mem_cons.mp hf with h | h
    · rw [h]
      unfold Bot.isImageFile Bot.extOf
      by_cases hd : d = some "jpeg"
      · rw [if_pos hd]
        rfl
      · rw [if_neg hd]
        rfl
    · exact ih (start + 1) f h

theorem Bot.expectedFiles_stem (ds : List (Option String)) :
    ∀ (start i : Nat) (hi : i < (Bot.expectedFiles start ds).length),
      ((Bot.expectedFiles start ds).get ⟨i, hi⟩).stem = Bot.pad3 (start + i) := by
  induction ds with
  | nil =>
    intro start i hi
    simp [Bot.expectedFiles] at hi
  | cons d ds ih =>
    intro start i hi
    cases i with
    | zero => simp [Bot.expectedFiles]
    | succ j =>
      have hj : j < (Bot.expectedFiles (start + 1) ds).length := by
        simpa [Bot.expectedFiles] using hi
      have := ih (start + 1) j hj
      simp only [Bot.expectedFiles, List.get_cons_succ]
      rw [this]
      congr 1
      omega

/-- One accepted `handle_image` call appends the next ordinal file. -/
theorem Bot.handle_image_accepts (maxImages : Nat) (files : List Bot.ImgFile)
    (d : Option String)
    (hall : ∀ f ∈ files, Bot.isImageFile f = true)
    (hd : d = some "jpeg" ∨ d = some "png")
    (hlt : files.length < maxImages) :
    (Bot.handle_image maxImages files d).2
      = files ++ [⟨Bot.pad3 (files.length + 1), Bot.extOf d⟩] := by
  have hfilter : files.filter Bot.isImageFile = files := List.filter_eq_self.mpr hall
  unfold Bot.handle_image
  simp only [hfilter]
  rw [if_neg (by omega), if_pos hd]
  by_cases hmax : files.length + 1 = maxImages
  · rw [if_pos hmax]
    rfl
  · rw [if_neg hmax]
    rfl

/-- Accepted images accumulate as the ordinal files `start..start+k`. -/
theorem Bot.runImages_spec (maxImages : Nat) :
    ∀ (ds : List (Option String)) (files : List Bot.ImgFile),
      (∀ d ∈ ds, d = some "jpeg" ∨ d = some "png") →
      (∀ f ∈ files, Bot.isImageFile f = true) →
      files.length + ds.length ≤ maxImages →
      Bot.runImages maxImages files ds
        = files ++ Bot.expectedFiles (files.length + 1) ds := by
  intro ds
  induction ds with
  | nil =>
    intro files _ _ _
    simp [Bot.runImages, Bot.expectedFiles]
  | cons d ds ih =>
    intro files hacc hall hlen
    have hd := hacc d (List.mem_cons_self d ds)
    have hstep := Bot.handle_image_accepts maxImages files d hall hd (by
      simp only [List.length_cons] at hlen
      omega)
    have hallnew : ∀ f ∈ files ++ [⟨Bot.pad3 (files.length + 1), Bot.extOf d⟩],
        Bot.isImageFile f = true := by
      intro f hf
      rcases List.mem_append.mp hf with h | h
      · exact hall f h
      · rw [List.mem_singleton.mp h]
        unfold Bot.isImageFile Bot.extOf
        by_cases hj : d = some "jpeg"
        · rw [if_pos hj]
          rfl
        · rw [if_neg hj]
          rfl
    have ihres := ih (files ++ [⟨Bot.pad3 (files.length + 1), Bot.extOf d⟩])
      (fun d2 hd2 => hacc d2 (List.mem_cons_of_mem d hd2)) hallnew (by
        simp only [List.length_append, List.length_singleton, List.length_cons,
          List.length_nil] at hlen ⊢
        omega)
    unfold Bot.runImages
    rw [hstep, ihres]
    simp only [List.length_append, List.length_singleton, List.append_assoc,
      List.singleton_append, Bot.expectedFiles]

/-- C6: starting from a fresh session, MAX_IMAGES accepted images are
stored as exactly the ordinally named files `001..MAX` (3-digit-padded,
in arrival order, with the sniffed extension), and one further image —
of accepted type — is rejected with the capacity message and not
stored. -/
theorem image_capacity_and_ordering (maxImages : Nat) (ds : List (Option String))
    (dExtra : Option String)
    (hlen : ds.length = maxImages)
    (hacc : ∀ d ∈ ds, d = some "jpeg" ∨ d = some "png")
    (_hextra : dExtra = some "jpeg" ∨ dExtra = some "png") :
    Bot.runImages maxImages [] ds = Bot.expectedFiles 1 ds ∧
    (Bot.runImages maxImages [] ds).length = maxImages ∧
    (∀ i (hi : i < (Bot.runImages maxImages [] ds).length),
      ((Bot.runImages maxImages [] ds).get ⟨i, hi⟩).stem = Bot.pad3 (i + 1)) ∧
    Bot.handle_image maxImages (Bot.runImages maxImages [] ds) dExtra
      = (.capacityExceeded, Bot.runImages maxImages [] ds) := by
  have hrun : Bot.runImages maxImages [] ds = Bot.expectedFiles 1 ds := by
    have h := Bot.runImages_spec maxImages ds [] hacc (by intro f hf; cases hf)
      (by simp [hlen])
    simpa using h
  have hcap : Bot.handle_image maxImages (Bot.expectedFiles 1 ds) dExtra
      = (.capacityExceeded, Bot.expectedFiles 1 ds) := by
    unfold Bot.handle_image
    rw [List.filter_eq_self.mpr (Bot.expectedFiles_all_images 1 ds)]
    rw [if_pos (by rw [Bot.expectedFiles_length, hlen])]
  refine ⟨hrun, by rw [hrun, Bot.expectedFiles_length, hlen], ?_, by rw [hrun]; exact hcap⟩
  intro i hi
  have hi' : i < (Bot.expectedFiles 1 ds).length := by rw [← hrun]; exact hi
  rw [List.get_of_eq hrun ⟨i, hi⟩]
  rw [Bot.expectedFiles_stem ds 1 i hi']
  congr 1
  omega

theorem image_capacity_and_ordering_witness :
    Bot.runImages 2 [] [some "jpeg", some "png"]
      = [⟨"001", "jpg"⟩, ⟨"002", "png"⟩] ∧
    Bot.handle_image 2 (Bot.runImages 2 [] [some "jpeg", some "png"]) (some "jpeg")
      = (.capacityExceeded, Bot.runImages 2 [] [some "jpeg", some "png"]) := by
  have h := image_capacity_and_ordering 2 [some "jpeg", some "png"] (some "jpeg") rfl
    (by
      intro d hd
      rcases List.mem_cons.mp hd with h1 | h1
      · exact Or.inl h1
      · exact Or.inr (List.mem_singleton.mp h1))
    (Or.inl rfl)
  exact ⟨h.1.trans (by decide), h.2.2.2⟩

/-- C4 counterexample: a `poem_dict` whose `user_id` key is missing does
NOT fail: `str(poem_dict.get("user_id"))` is the truthy string `"None"`,
so both backends happily store the poem — the JSON store under the user
key `"None"`, the API store with the URL `id/None/...`. -/
theorem upload_missing_user_id_succeeds :
    okUrl (JsonDB.upload_to_db slugPlain []
        ⟨none, some "ann", some "ode", some "hope", some "r1"⟩ "2024") = some "ann/ode" ∧
    okState (JsonDB.upload_to_db slugPlain []
        ⟨none, some "ann", some "ode", some "hope", some "r1"⟩ "2024")
      = some [("None", [("ann", ⟨"ann", [("ode", ⟨"ode", "hope", "r1", "2024", "ann/ode"⟩)]⟩)])] ∧
    okUrl (Pg.upload_to_db slugPlain "1" Pg.emptyDB
        ⟨none, some "ann", some "ode", some "hope", some "r1"⟩ "2024")
      = some "id/None/ann/ode" :=
  ⟨by decide, by decide, by decide⟩

/-- C4 (amended): `upload_to_db` raises `ValueError` and stores nothing
exactly when the stringified `user_id` is empty (the field present and
equal to `""`); a missing `user_id` key instead stringifies to `"None"`
and the upsert succeeds under that key. -/
theorem upload_empty_user_id_rejected (slug : String → String) (mu : String)
    (dbJ : DB) (dbP : Pg.PgDB) (p : PoemDict) (now : String)
    (hmu : mu ≠ "") (hempty : pyStr p.user_id = "") :
    JsonDB.upload_to_db slug dbJ p now = .error "Missing required field: user_id" ∧
    Pg.upload_to_db slug mu dbP p now = .error "Missing required field: user_id" := by
  constructor
  · simp [JsonDB.upload_to_db, hempty]
  · simp [Pg.upload_to_db, hmu, hempty]

theorem upload_empty_user_id_rejected_witness :
    JsonDB.upload_to_db slugPlain [] ⟨some "", some "A", some "T", some "X", some "R"⟩ "t"
      = .error "Missing required field: user_id" ∧
    Pg.upload_to_db slugPlain "1" Pg.emptyDB
        ⟨some "", some "A", some "T", some "X", some "R"⟩ "t"
      = .error "Missing required field: user_id" :=
  upload_empty_user_id_rejected slugPlain "1" [] Pg.emptyDB
    ⟨some "", some "A", some "T", some "X", some "R"⟩ "t" (by decide) rfl

/-- C5 counterexample: the JSON-file backend's `upload_to_db` returns
`author_slug/title_slug` for EVERY user (there is no primary-user branch;
the source carries a `TODO: add user_id in the future`), so for a
non-primary user — here `"42"`, with `"1"` as the deployment's primary
user — the returned URL is not `id/42/...` as the claim requires of every
successful upsert. -/
theorem json_upload_url_ignores_user :
    okUrl (JsonDB.upload_to_db slugPlain [] (mkPoem "42" "ann" "ode" "x" "r") "t")
      = some "ann/ode" ∧
    ("ann/ode" : String) ≠ "id/42/ann/ode" :=
  ⟨by decide, by decide⟩

/-- C5 (amended): the PostgreSQL backend's `upload_to_db` returns
`author_slug/title_slug` when `user_id` equals `MAIN_USER_ID` and
`id/{user_id}/author_slug/title_slug` otherwise; the JSON-file backend
returns `author_slug/title_slug` unconditionally. -/
theorem upload_url_formats (slug : String → String) (mu : String) (dbJ : DB)
    (dbP : Pg.PgDB) (p : PoemDict) (now : String)
    (hmu : mu ≠ "") (hu : pyStr p.user_id ≠ "") :
    okUrl (Pg.upload_to_db slug mu dbP p now)
      = some (if pyStr p.user_id = mu
          then slug (pyStrip (p.author.getD "Unknown")) ++ "/"
            ++ slug (pyStrip (p.title.getD "Unknown"))
          else "id/" ++ pyStr p.user_id ++ "/" ++ slug (pyStrip (p.author.getD "Unknown"))
            ++ "/" ++ slug (pyStrip (p.title.getD "Unknown"))) ∧
    okUrl (JsonDB.upload_to_db slug dbJ p now)
      = some (slug (pyStrip (p.author.getD "Unknown")) ++ "/"
          ++ slug (pyStrip (p.title.getD "Unknown"))) := by
  constructor
  · rw [Pg.upload_to_db, if_neg hmu, if_neg hu]
    cases Pg.ensure_user dbP (pyStr p.user_id) with
    | mk dbA uid =>
      cases Pg.ensure_author slug dbA uid (pyStrip (p.author.getD "Unknown")) with
      | mk dbB aid => rfl
  · rw [JsonDB.upload_to_db]
    simp only [if_neg hu]
    rfl

theorem upload_url_formats_witness :
    okUrl (Pg.upload_to_db slugPlain "1" Pg.emptyDB (mkPoem "42" "ann" "ode" "x" "r") "t")
      = some "id/42/ann/ode" ∧
    okUrl (JsonDB.upload_to_db slugPlain [] (mkPoem "42" "ann" "ode" "x" "r") "t")
      = some "ann/ode" := by
  have h := upload_url_formats slugPlain "1" [] Pg.emptyDB
    (mkPoem "42" "ann" "ode" "x" "r") "t" (by decide) (by decide)
  exact ⟨h.1.trans (by decide), h.2.trans (by decide)⟩

theorem upload_incomplete_draft_unchanged_witness :
    Bot.upload ⟨[(7, "abc123")], [(7, ⟨some "Unknown", none, some "some text"⟩)], ["abc123"]⟩
      7 true
      = (.incompleteDraft,
         ⟨[(7, "abc123")], [(7, ⟨some "Unknown", none, some "some text"⟩)], ["abc123"]⟩) :=
  upload_incomplete_draft_unchanged _ 7 true ⟨some "Unknown", none, some "some text"⟩
    rfl (Or.inr (Or.inl rfl))

end PoemBot
